import Mathlib

/-!
# Verification of the ITS digits-to-raw conversion and of helpers around it

Shallow embeddings of

* `Detectors/ITSMFT/ITS/simulation/src/digi2raw.cxx`: the link assignment pass
  `setupLinks` and the streaming loop of `digi2raw`;
* `macro/migrateSimFiles.C`: the macro `migrateSimFiles`;
* `Framework/Core/src/AODReaderHelpers.cxx`: the file index of `rootFileReaderCallback`,
  `getMask`, `calculateReadMask` and `getListOfUnknown`;
* `Detectors/ITSMFT/MFT/workflow/src/TrackFitterSpec.cxx`: `TtoSMatrixSym55` and the state
  `mState` of `TrackFitterTask` in `init` and `run`.

The definitions of all four come first, the theorems follow.

## `setupLinks`

The three nested `for` loops of `setupLinks` (layers, staves of a layer, link slots of a
stave) are left folds over `List.range`; the local variables of the C++ function are the
fields of `SetupState`.  The encoder `m2r` is observed through what `setupLinks` does to
it: the RU containers it creates (`rus`) and the links it adds and registers with the
writer (`links`), both in call order.

Integers: the counters (`linkID`, `cruID`, `nCRU`, ...) are C++ `int`s that only grow by
one per loop iteration; they are natural numbers here (`cruIDprev`, which starts at `-1`,
is an integer).  Lane patterns are `uint32_t`: they are reduced modulo `2 ^ 32`.
-/

namespace Digi2Raw

/-- The chip mapping `MAP = ChipMappingITS` as far as `setupLinks` reads it: the number of
layers and the four lookups it calls.  The class itself is declared outside this file, so
its members are fields. -/
structure Mapping where
  NLayers : Nat
  getNStavesOnLr : Nat → Nat
  getRUType : Nat → Nat
  getCablesOnRUType : Nat → Nat
  RUSW2FEEId : Nat → Nat → Nat

/-- The fields of a `GBTLink` that `setupLinks` assigns. -/
structure GBTLink where
  lanes : Nat
  idInCRU : Nat
  cruID : Nat
  feeID : Nat
  endPointID : Nat
deriving DecidableEq, Repr

/-- One pass through the body of `if (accept)` in the slot loop: the link made by
`addGBTLink` and stored in `ru.links[il]` of RU `ruID`, with the file name given to
`registerLink`.  `ilr` and `ir` are the values of the two outer loop variables. -/
structure LinkReg where
  ilr : Nat
  ir : Nat
  ruID : Nat
  il : Nat
  link : GBTLink
  path : String
deriving DecidableEq, Repr

/-- Everything `setupLinks` depends on: the mapping, the table `lnkAssign` (RU type, then
slot), the RU range of the encoder (`getRUSWMin`, `getRUSWMax`), the arguments `outDir`,
`outPrefix`, `filePerCRU`, and the detector id `DetID::ITS`. -/
structure Config where
  mp : Mapping
  lnkAssign : Nat → Nat → Nat
  ruSWMin : Nat
  ruSWMax : Nat
  outDir : String
  outPrefix : String
  filePerCRU : Bool
  detIDITS : Nat

/-- Local variables of `setupLinks` and the calls made on the encoder so far. -/
structure SetupState where
  nCRU : Nat
  nRUtot : Nat
  nRU : Nat
  nLinks : Nat
  linkID : Nat
  cruIDprev : Int
  cruID : Nat
  outFileLink : String
  rus : List Nat
  links : List LinkReg
deriving DecidableEq, Repr

def MaxLinksPerRU : Nat := 3

def MaxLinksPerCRU : Nat := 16

/-- The table `lnkAssign` as it is compiled, a local constant of `setupLinks`: the rows
IB, MB, OB.  A row index outside `0 .. 2` is outside the C++ array; it reads as 0 here. -/
def lnkAssignDefault (ruType il : Nat) : Nat :=
  match ruType, il with
  | 0, 0 => 3
  | 0, 1 => 3
  | 0, 2 => 3
  | 1, 0 => 5
  | 1, 1 => 5
  | 1, 2 => 6
  | 2, 0 => 9
  | 2, 1 => 9
  | 2, 2 => 10
  | _, _ => 0

/-- The test `!(ruID < m2r.getRUSWMin() || ruID > m2r.getRUSWMax())`. -/
def accept (cfg : Config) (ruID : Nat) : Bool :=
  !(decide (ruID < cfg.ruSWMin) || decide (ruID > cfg.ruSWMax))

/-- Modelled from the spec: `MC2RawEncoder::getCreateRUDecode` is declared outside this
file; it "returns existing container or creates one", so the RU id is recorded once. -/
def getCreateRUDecode (rus : List Nat) (ruID : Nat) : List Nat :=
  if ruID ∈ rus then rus else rus ++ [ruID]

/-- Modelled from the spec: the RU container (`RUDecodeData`) is declared outside this
file; `getCreateRUDecode` "creates one bound to the RU's class metadata", so the
`ru.ruInfo->ruType` that `setupLinks` reads is the RU type of `ruID`. -/
def ruInfoType (mp : Mapping) (ruID : Nat) : Nat :=
  mp.getRUType ruID

/-- The value `lanes & ((0x1 << lnkAs[il]) - 1) << (accL)` stored in `link->lanes`: in C++
the shift binds tighter than `&`, so the mask is shifted and then applied.  The shifts here
are exact and the result is cut to the 32 bits of `link->lanes`.  The C++ shifts are shifts
of a 32-bit `int`: they give this value when `accL + n` is at most 30 (the compiled table
requests at most 28 lanes per RU); beyond that the C++ value is not defined by the language
and the theorems that speak of the stored value carry the bound. -/
def laneBits (lanes n accL : Nat) : Nat :=
  (lanes &&& (((1 <<< n) - 1) <<< accL)) % 2 ^ 32

/-- The file name given to `registerLink`. -/
def outFile (cfg : Config) (nCRU ilr : Nat) : String :=
  if cfg.filePerCRU then
    cfg.outDir ++ "/" ++ cfg.outPrefix ++ "_cru" ++ toString nCRU ++ ".raw"
  else
    cfg.outDir ++ "/" ++ cfg.outPrefix ++ "_lr" ++ toString ilr ++ ".raw"

/-- Body of the slot loop `for (il = 0; il < MaxLinksPerRU; il++)`; the loop state is the
state of `setupLinks` with the local `accL`. -/
def slotStep (cfg : Config) (ilr ir ruID : Nat) (acc : Bool) (lnkAs : Nat → Nat)
    (p : SetupState × Nat) (il : Nat) : SetupState × Nat :=
  let s := p.1
  let accL := p.2
  let p1 : SetupState × Nat :=
    if acc then
      let lanes := cfg.mp.getCablesOnRUType (ruInfoType cfg.mp ruID) % 2 ^ 32
      let link : GBTLink :=
        { lanes := laneBits lanes (lnkAs il) accL
          idInCRU := s.linkID
          cruID := s.cruID
          feeID := cfg.mp.RUSW2FEEId ruID il
          endPointID := 0 }
      let out := outFile cfg s.nCRU ilr
      let s1 : SetupState :=
        { s with
          nLinks := s.nLinks + 1
          outFileLink := out
          links := s.links ++ [{ ilr := ilr, ir := ir, ruID := ruID, il := il, link := link, path := out }] }
      let s2 : SetupState :=
        if s1.cruIDprev ≠ (s1.cruID : Int) then
          { s1 with cruIDprev := (s1.cruID : Int), nCRU := s1.nCRU + 1 }
        else s1
      (s2, accL + lnkAs il)
    else (s, accL)
  let s3 := p1.1
  if s3.linkID + 1 ≥ MaxLinksPerCRU then
    ({ s3 with linkID := 0, cruID := s3.cruID + 1 }, p1.2)
  else
    ({ s3 with linkID := s3.linkID + 1 }, p1.2)

/-- Head of the body of the stave loop: `int ruID = nRUtot++`, and for an accepted RU
`m2r.getCreateRUDecode(ruID); nRU++`. -/
def staveEnter (cfg : Config) (s : SetupState) : SetupState :=
  let ruID := s.nRUtot
  let s0 : SetupState := { s with nRUtot := s.nRUtot + 1 }
  if accept cfg ruID then
    { s0 with rus := getCreateRUDecode s0.rus ruID, nRU := s0.nRU + 1 }
  else s0

/-- Body of the stave loop `for (ir = 0; ir < nruLr; ir++)`: `staveEnter`, then the slot
loop started with `accL = 0`. -/
def staveStep (cfg : Config) (ilr : Nat) (lnkAs : Nat → Nat) (s : SetupState) (ir : Nat) :
    SetupState :=
  let ruID := s.nRUtot
  let acc := accept cfg ruID
  ((List.range MaxLinksPerRU).foldl (slotStep cfg ilr ir ruID acc lnkAs) (staveEnter cfg s, 0)).1

/-- Body of the layer loop `for (ilr = 0; ilr < mp.NLayers; ilr++)`. -/
def layerStep (cfg : Config) (s : SetupState) (ilr : Nat) : SetupState :=
  let nruLr := cfg.mp.getNStavesOnLr ilr
  let ruType := cfg.mp.getRUType s.nRUtot
  let lnkAs := cfg.lnkAssign ruType
  let s1 := (List.range nruLr).foldl (staveStep cfg ilr lnkAs) s
  if s1.linkID ≠ 0 then { s1 with linkID := 0, cruID := s1.cruID + 1 } else s1

/-- The state at the declarations of `setupLinks`; `cruID = DetID::ITS << 10`. -/
def initState (cfg : Config) : SetupState :=
  { nCRU := 0, nRUtot := 0, nRU := 0, nLinks := 0, linkID := 0, cruIDprev := -1
    cruID := cfg.detIDITS <<< 10, outFileLink := "", rus := [], links := [] }

/-- The function `setupLinks`: the state after the layer loop. -/
def setupLinks (cfg : Config) : SetupState :=
  (List.range cfg.mp.NLayers).foldl (layerStep cfg) (initState cfg)

/-! ## The streaming loop of digi2raw -/

/-- A `ROFRecord` as far as `digi2raw` reads it: `getFirstEntry()`, `getNEntries()` and the
time stamp `getBCData()` of the frame (an interaction record, here its number). -/
structure ROFRecord where
  firstEntry : Nat
  nEntries : Nat
  bcData : Nat
deriving DecidableEq, Repr

/-- What `digTree.GetEntry(i)` loads: the digits `digiVec` and the ROF records
`rofRecVec` of one tree entry. -/
structure TreeEntry (Digit : Type) where
  digiVec : List Digit
  rofRecVec : List ROFRecord

/-- A `gsl::span<const Digit>(&digiVec[first], size)` as the code builds it: a view of
`size` digits of the vector `digiVec` from index `first` on.  Nothing checks it against the
length of the vector. -/
structure DigitSpan (Digit : Type) where
  digiVec : List Digit
  first : Nat
  size : Nat
deriving DecidableEq, Repr

/-- The digits a span views, when it lies within its vector. -/
def DigitSpan.elems {Digit : Type} (s : DigitSpan Digit) : Option (List Digit) :=
  if s.first + s.size ≤ s.digiVec.length then some ((s.digiVec.drop s.first).take s.size)
  else none

/-- One call `m2r.digits2raw(dgs, rofRec.getBCData())`. -/
structure EncoderCall (Digit : Type) where
  dgs : DigitSpan Digit
  bcData : Nat
deriving DecidableEq, Repr

/-- The variable `nEntProc` of `digi2raw` and the calls made on the encoder so far. -/
structure DriverState (Digit : Type) where
  nEntProc : Nat
  calls : List (EncoderCall Digit)

/-- The span `gsl::span(&digiVec[rofRec.getFirstEntry()], nDigROF)`. -/
def digitSpan {Digit : Type} (digiVec : List Digit) (rofRec : ROFRecord) : DigitSpan Digit :=
  { digiVec := digiVec, first := rofRec.firstEntry, size := rofRec.nEntries }

/-- Body of the loop `for (const auto& rofRec : rofRecVec)`. -/
def rofStep {Digit : Type} (digiVec : List Digit) (st : DriverState Digit) (rofRec : ROFRecord) :
    DriverState Digit :=
  let nDigROF := rofRec.nEntries
  if nDigROF = 0 then st
  else
    { nEntProc := st.nEntProc + 1
      calls := st.calls ++ [{ dgs := digitSpan digiVec rofRec, bcData := rofRec.bcData }] }

/-- Body of the loop over the tree entries: `GetEntry(i)`, then the loop over its ROF
records. -/
def entryStep {Digit : Type} (st : DriverState Digit) (entry : TreeEntry Digit) :
    DriverState Digit :=
  entry.rofRecVec.foldl (rofStep entry.digiVec) st

/-- The streaming loop of `digi2raw` over the entries of the digit tree. -/
def digi2rawLoop {Digit : Type} (entries : List (TreeEntry Digit)) : DriverState Digit :=
  entries.foldl entryStep { nEntProc := 0, calls := [] }

/-- The calls the claim describes: one per record with a nonzero entry count, in input
order (tree entry, then record within the entry), with the slice
`[firstEntry, firstEntry + nEntries)` of the digits of the entry and the time stamp of the
record. -/
def expectedCalls {Digit : Type} (entries : List (TreeEntry Digit)) : List (EncoderCall Digit) :=
  entries.flatMap (fun t =>
    (t.rofRecVec.filter (fun r => decide (r.nEntries ≠ 0))).map
      (fun r =>
        { dgs := { digiVec := t.digiVec, first := r.firstEntry, size := r.nEntries }
          bcData := r.bcData }))

/-- The ROF records of all tree entries, in input order. -/
def allRecords {Digit : Type} (entries : List (TreeEntry Digit)) : List ROFRecord :=
  entries.flatMap (fun t => t.rofRecVec)

/-! ## Closed forms and loop invariants -/

/-- Global index of the first RU of layer `ilr`: the staves of the layers before it. -/
def firstRU (mp : Mapping) : Nat → Nat
  | 0 => 0
  | l + 1 => firstRU mp l + mp.getNStavesOnLr l

/-- CRU id in use when the layer loop reaches layer `ilr`. -/
def cruStart (mp : Mapping) (detIDITS : Nat) : Nat → Nat
  | 0 => detIDITS <<< 10
  | l + 1 => cruStart mp detIDITS l + (3 * mp.getNStavesOnLr l + 15) / 16

/-- Lanes requested by the slots before slot `il`. -/
def accBefore (lnkAs : Nat → Nat) : Nat → Nat
  | 0 => 0
  | il + 1 => accBefore lnkAs il + lnkAs il

/-- The per-layer file name. -/
def layerFile (cfg : Config) (ilr : Nat) : String :=
  cfg.outDir ++ "/" ++ cfg.outPrefix ++ "_lr" ++ toString ilr ++ ".raw"

/-- The link of slot `il` of stave `ir` of layer `ilr`, in closed form. -/
def linkAt (cfg : Config) (ilr ir il : Nat) : GBTLink :=
  { lanes := laneBits (cfg.mp.getCablesOnRUType (cfg.mp.getRUType (firstRU cfg.mp ilr + ir)) % 2 ^ 32)
      (cfg.lnkAssign (cfg.mp.getRUType (firstRU cfg.mp ilr)) il)
      (accBefore (cfg.lnkAssign (cfg.mp.getRUType (firstRU cfg.mp ilr))) il)
    idInCRU := (3 * ir + il) % 16
    cruID := cruStart cfg.mp cfg.detIDITS ilr + (3 * ir + il) / 16
    feeID := cfg.mp.RUSW2FEEId (firstRU cfg.mp ilr + ir) il
    endPointID := 0 }

/-- A registered link is the one its loop indices determine. -/
structure EventOK (cfg : Config) (e : LinkReg) : Prop where
  ilr_lt : e.ilr < cfg.mp.NLayers
  ir_lt : e.ir < cfg.mp.getNStavesOnLr e.ilr
  il_lt : e.il < 3
  ruID_eq : e.ruID = firstRU cfg.mp e.ilr + e.ir
  accepted : accept cfg e.ruID = true
  link_eq : e.link = linkAt cfg e.ilr e.ir e.il
  path_lr : cfg.filePerCRU = false → e.path = layerFile cfg e.ilr

/-- Loop indices of a registered link. -/
def coords (e : LinkReg) : Nat × Nat × Nat := (e.ilr, e.ir, e.il)

/-- Indices of the first `k` slots of stave `ir` of layer `ilr`. -/
def slotCoords (ilr ir k : Nat) : List (Nat × Nat × Nat) :=
  (List.range k).map (fun il => (ilr, ir, il))

/-- Indices of the links of stave `ir` of layer `ilr`: its three slots if the RU is
accepted, none otherwise. -/
def staveCoords (cfg : Config) (ilr ir : Nat) : List (Nat × Nat × Nat) :=
  if accept cfg (firstRU cfg.mp ilr + ir) then slotCoords ilr ir 3 else []

/-- Indices of the links of the first `k` staves of layer `ilr`, in loop order. -/
def layerCoords (cfg : Config) (ilr k : Nat) : List (Nat × Nat × Nat) :=
  (List.range k).flatMap (staveCoords cfg ilr)

/-- Indices of the links of the first `L` layers, in loop order. -/
def allCoords (cfg : Config) (L : Nat) : List (Nat × Nat × Nat) :=
  (List.range L).flatMap (fun l => layerCoords cfg l (cfg.mp.getNStavesOnLr l))

/-- Invariant of the slot loop of one stave, before slot `il`. -/
structure SlotInv (cfg : Config) (ilr ir : Nat) (s0 : SetupState) (il : Nat)
    (p : SetupState × Nat) : Prop where
  nRUtot_eq : p.1.nRUtot = s0.nRUtot
  rus_eq : p.1.rus = s0.rus
  nRU_eq : p.1.nRU = s0.nRU
  linkID_eq : p.1.linkID = (3 * ir + il) % 16
  cruID_eq : p.1.cruID = cruStart cfg.mp cfg.detIDITS ilr + (3 * ir + il) / 16
  accL_eq : accept cfg (firstRU cfg.mp ilr + ir) = true →
    p.2 = accBefore (cfg.lnkAssign (cfg.mp.getRUType (firstRU cfg.mp ilr))) il
  links_ok : ∀ e ∈ p.1.links, EventOK cfg e
  coords_eq : p.1.links.map coords = s0.links.map coords ++
    (if accept cfg (firstRU cfg.mp ilr + ir) then slotCoords ilr ir il else [])
  nLinks_eq : p.1.nLinks = p.1.links.length

/-- The link registered by an accepted slot. -/
def slotReg (cfg : Config) (ilr ir ruID : Nat) (lnkAs : Nat → Nat) (p : SetupState × Nat)
    (il : Nat) : LinkReg :=
  { ilr := ilr, ir := ir, ruID := ruID, il := il
    link :=
      { lanes := laneBits (cfg.mp.getCablesOnRUType (ruInfoType cfg.mp ruID) % 2 ^ 32) (lnkAs il) p.2
        idInCRU := p.1.linkID
        cruID := p.1.cruID
        feeID := cfg.mp.RUSW2FEEId ruID il
        endPointID := 0 }
    path := outFile cfg p.1.nCRU ilr }

/-- Invariant of the stave loop of layer `ilr`, before stave `ir`; with `ir = 0` it is the
invariant of the layer loop before layer `ilr`. -/
structure LayerInv (cfg : Config) (ilr ir : Nat) (s : SetupState) : Prop where
  nRUtot_eq : s.nRUtot = firstRU cfg.mp ilr + ir
  linkID_eq : s.linkID = (3 * ir) % 16
  cruID_eq : s.cruID = cruStart cfg.mp cfg.detIDITS ilr + (3 * ir) / 16
  links_ok : ∀ e ∈ s.links, EventOK cfg e
  coords_eq : s.links.map coords = allCoords cfg ilr ++ layerCoords cfg ilr ir
  rus_eq : s.rus = (List.range s.nRUtot).filter (accept cfg)
  nLinks_eq : s.nLinks = s.links.length
  nRU_eq : s.nRU = s.rus.length

/-- Invariant for the order of the CRU ids: the registered links carry non-decreasing CRU
ids, none above the current one. -/
structure OrdInv (s : SetupState) : Prop where
  sorted : (s.links.map (fun e => e.link.cruID)).Pairwise (fun a b => a ≤ b)
  le_cur : ∀ e ∈ s.links, e.link.cruID ≤ s.cruID

/-- Number of staves of the mapping, all layers together. -/
def nStavesTotal (mp : Mapping) : Nat :=
  ((List.range mp.NLayers).map mp.getNStavesOnLr).sum

/-- Value of a string of decimal digits. -/
def digitsValue (l : List Char) : Nat :=
  l.foldl (fun a c => 10 * a + (c.toNat - 48)) 0

/-- Place of a link among all link slots of all CRUs: `16 * cruID + idInCRU`. -/
def linkPos (e : LinkReg) : Nat :=
  16 * e.link.cruID + e.link.idInCRU

/-- Invariant for the places of the links: they grow strictly in creation order and stay
below the place the counters point at. -/
structure PosInv (s : SetupState) : Prop where
  lt16 : s.linkID < 16
  sorted : (s.links.map linkPos).Pairwise (fun a b => a < b)
  below : ∀ e ∈ s.links, linkPos e < 16 * s.cruID + s.linkID

/-- Invariant for the count `nCRU`: it is the number of different CRU ids of the links, and
`cruIDprev` is the largest of them (or still `-1`). -/
structure CruInv (s : SetupState) : Prop where
  cnt : s.nCRU = ((s.links.map (fun e => e.link.cruID)).toFinset).card
  prev_ge : ∀ e ∈ s.links, (e.link.cruID : Int) ≤ s.cruIDprev
  prev_mem : s.cruIDprev = -1 ∨ ∃ e ∈ s.links, (e.link.cruID : Int) = s.cruIDprev
  prev_le : s.cruIDprev ≤ (s.cruID : Int)

/-- Number of CRUs a layer of `n` staves takes: `3 * n` link slots, 16 per CRU, rounded
up. -/
def crusOfLayer (n : Nat) : Nat :=
  (3 * n + 15) / 16

/-- Number of CRUs taken by the first `L` layers. -/
def crusBefore (mp : Mapping) (L : Nat) : Nat :=
  ((List.range L).map (fun l => crusOfLayer (mp.getNStavesOnLr l))).sum

/-- Invariant for `nCRU` when every RU is accepted: `nCRU` counts the CRU ids from the
first one up to the current one, the current one included once it holds a link. -/
structure CntInv (cfg : Config) (s : SetupState) : Prop where
  base_le : cfg.detIDITS <<< 10 ≤ s.cruID
  at_zero : s.linkID = 0 →
    s.nCRU = s.cruID - cfg.detIDITS <<< 10 ∧ s.cruIDprev < (s.cruID : Int)
  at_pos : s.linkID ≠ 0 →
    s.nCRU = s.cruID - cfg.detIDITS <<< 10 + 1 ∧ s.cruIDprev = (s.cruID : Int)

/-! ## Concrete calls -/

/-- A mapping of two layers, one IB stave (9 lanes) and two OB staves (28 lanes). -/
def mapTwoLayers : Mapping :=
  { NLayers := 2
    getNStavesOnLr := fun l => if l = 0 then 1 else 2
    getRUType := fun r => if r = 0 then 0 else 2
    getCablesOnRUType := fun t => if t = 0 then 0x1ff else 0xfffffff
    RUSW2FEEId := fun r l => r * 256 + l }

/-- A call on `mapTwoLayers` with the compiled table, the RU range `0 .. 0xff` that
`digi2raw` sets, and one file per layer. -/
def cfgPerLayer : Config :=
  { mp := mapTwoLayers, lnkAssign := lnkAssignDefault, ruSWMin := 0, ruSWMax := 255
    outDir := ".", outPrefix := "ITS", filePerCRU := false, detIDITS := 0 }

/-- The call of `cfgPerLayer` with the RU range cut to RU 2, the second stave of layer 1. -/
def cfgOnlyRU2 : Config :=
  { mp := mapTwoLayers, lnkAssign := lnkAssignDefault, ruSWMin := 2, ruSWMax := 2
    outDir := ".", outPrefix := "ITS", filePerCRU := false, detIDITS := 0 }

/-- The call of `cfgPerLayer` with `--file-per-cru`. -/
def cfgPerCRU : Config :=
  { mp := mapTwoLayers, lnkAssign := lnkAssignDefault, ruSWMin := 0, ruSWMax := 255
    outDir := ".", outPrefix := "ITS", filePerCRU := true, detIDITS := 0 }

/-- One IB stave whose lane pattern is `lanes`, read with the compiled table, no RU
filtered out. -/
def cfgOneIB (lanes : Nat) : Config :=
  { mp :=
      { NLayers := 1
        getNStavesOnLr := fun _ => 1
        getRUType := fun _ => 0
        getCablesOnRUType := fun _ => lanes
        RUSW2FEEId := fun r l => r * 256 + l }
    lnkAssign := lnkAssignDefault, ruSWMin := 0, ruSWMax := 255
    outDir := ".", outPrefix := "ITS", filePerCRU := false, detIDITS := 0 }

/-- Scenario A: two layers of one stave, IB then OB, the compiled table, no RU filtered
out; the lane patterns, the FEE ids and the detector id are left open. -/
def cfgScenarioA (cables : Nat → Nat) (fee : Nat → Nat → Nat) (d : Nat) : Config :=
  { mp :=
      { NLayers := 2
        getNStavesOnLr := fun _ => 1
        getRUType := fun r => if r = 0 then 0 else 2
        getCablesOnRUType := cables
        RUSW2FEEId := fee }
    lnkAssign := lnkAssignDefault, ruSWMin := 0, ruSWMax := 255
    outDir := ".", outPrefix := "ITS", filePerCRU := false, detIDITS := d }

/-- Two frames of one digit each with the same time stamp. -/
def sameStampEntries : List (TreeEntry Nat) :=
  [{ digiVec := [10, 11], rofRecVec := [⟨0, 1, 7⟩, ⟨1, 1, 7⟩] }]

/-- An empty frame between two frames, the last with an earlier time stamp. -/
def mixedEntries : List (TreeEntry Nat) :=
  [{ digiVec := [10, 11, 12], rofRecVec := [⟨0, 2, 7⟩, ⟨2, 0, 8⟩] },
   { digiVec := [20], rofRecVec := [⟨0, 1, 3⟩] }]

end Digi2Raw

/-! # Migration of simulation files (`macro/migrateSimFiles.C`) -/

namespace MigrateSimFiles

/-- What `migrateSimFiles` does that can be seen from outside: text written to
`std::cerr` and calls of `copyBranch(originfile, targetfile, branchnames)`. -/
inductive Event where
  | cerr (text : String)
  | copyBranch (originfile targetfile : String) (branchnames : List String)
deriving DecidableEq, Repr

/-- How a run of `migrateSimFiles` ends: it returns, or it calls a member of the null
pointer `grp`. -/
inductive Outcome where
  | returned
  | nullDeref
deriving DecidableEq, Repr

/-- Names and constants `migrateSimFiles` takes from headers outside this file:
`NameConf::getMCKinematicsFileName`, `NameConf::getHitsFileName`,
`SimTraits::KINEMATICSBRANCHES`, `SimTraits::DETECTORBRANCHNAMES` and the detector ids
`DetID::First .. DetID::Last`. -/
structure Env where
  getMCKinematicsFileName : String → String
  getHitsFileName : Nat → String → String
  KINEMATICSBRANCHES : List String
  DETECTORBRANCHNAMES : Nat → List String
  First : Nat
  Last : Nat

/-- Body of the loop over the detectors; `grp` is `none` for a null pointer, else the
answers of `isDetReadOut`.  Once the run has stopped nothing more happens. -/
def detStep (env : Env) (grp : Option (Nat → Bool)) (filebase : String)
    (st : List Event × Outcome) (detid : Nat) : List Event × Outcome :=
  match st.2 with
  | Outcome.nullDeref => st
  | Outcome.returned =>
    match grp with
    | none => (st.1, Outcome.nullDeref)
    | some isDetReadOut =>
      if !isDetReadOut detid then st
      else
        (st.1 ++ [Event.copyBranch (filebase ++ ".root") (env.getHitsFileName detid filebase)
          (env.DETECTORBRANCHNAMES detid)], Outcome.returned)

/-- The macro `migrateSimFiles(filebase)`; `grp` is the result of `GRPObject::loadFrom`. -/
def migrateSimFiles (env : Env) (grp : Option (Nat → Bool)) (filebase : String) :
    List Event × Outcome :=
  let ev0 : List Event := if grp.isNone then [Event.cerr "No GRP found. Exiting\n"] else []
  let originalfilename := filebase ++ ".root"
  let kinematicsfile := env.getMCKinematicsFileName filebase
  let ev1 := ev0 ++ [Event.copyBranch originalfilename kinematicsfile env.KINEMATICSBRANCHES]
  (List.range' env.First (env.Last + 1 - env.First)).foldl (detStep env grp filebase)
    (ev1, Outcome.returned)

end MigrateSimFiles

/-! # File index of the parallel AOD readers and read mask (`AODReaderHelpers.cxx`) -/

namespace AODReaderHelpers

/-- What one invocation of the callback of `rootFileReaderCallback` does with the file
list: it takes the file of index `fi`, or it reports the end of the stream. -/
inductive ReaderAction where
  | readFile (fi : Nat)
  | endOfStream
deriving DecidableEq, Repr

/-- One invocation of the callback, as far as the file index goes:
`fi = *counter * maxInputTimeslices + inputTimesliceId`; past the file list the reader
reports the end of the stream and leaves `*counter`, else it takes file `fi` and
increments `*counter`.  The result is the action and the new value of `*counter`. -/
def readerStep (maxInputTimeslices inputTimesliceId nFiles counter : Nat) : ReaderAction × Nat :=
  let fi := counter * maxInputTimeslices + inputTimesliceId
  if fi ≥ nFiles then (ReaderAction.endOfStream, counter)
  else (ReaderAction.readFile fi, counter + 1)

/-- Value of `*counter` before invocation `k` (`k = 0, 1, ...`); it starts at 0. -/
def counterAt (maxInputTimeslices inputTimesliceId nFiles : Nat) : Nat → Nat
  | 0 => 0
  | k + 1 =>
    (readerStep maxInputTimeslices inputTimesliceId nFiles
      (counterAt maxInputTimeslices inputTimesliceId nFiles k)).2

/-- The action of invocation `k` of the reader with the given `inputTimesliceId`. -/
def readerAction (maxInputTimeslices inputTimesliceId nFiles k : Nat) : ReaderAction :=
  (readerStep maxInputTimeslices inputTimesliceId nFiles
    (counterAt maxInputTimeslices inputTimesliceId nFiles k)).1

/-- The enumerators of `AODTypeMask` (`uint64_t`). -/
def AODTypeMask.None : Nat := 0

def AODTypeMask.Tracks : Nat := 1 <<< 0

def AODTypeMask.TracksCov : Nat := 1 <<< 1

def AODTypeMask.TracksExtra : Nat := 1 <<< 2

def AODTypeMask.Calo : Nat := 1 <<< 3

def AODTypeMask.Muon : Nat := 1 <<< 4

def AODTypeMask.VZero : Nat := 1 <<< 5

def AODTypeMask.Zdc : Nat := 1 <<< 6

def AODTypeMask.Trigger : Nat := 1 <<< 7

def AODTypeMask.Collisions : Nat := 1 <<< 8

def AODTypeMask.Timeframe : Nat := 1 <<< 9

def AODTypeMask.Unknown : Nat := 1 <<< 11

/-- The function `getMask`.  A `header::DataDescription` is given by its text, and two
descriptions are equal when their texts are. -/
def getMask (description : String) : Nat :=
  if description = "TRACKPAR" then AODTypeMask.Tracks
  else if description = "TRACKPARCOV" then AODTypeMask.TracksCov
  else if description = "TRACKEXTRA" then AODTypeMask.TracksExtra
  else if description = "CALO" then AODTypeMask.Calo
  else if description = "MUON" then AODTypeMask.Muon
  else if description = "VZERO" then AODTypeMask.VZero
  else if description = "ZDC" then AODTypeMask.Zdc
  else if description = "TRIGGER" then AODTypeMask.Trigger
  else if description = "COLLISION" then AODTypeMask.Collisions
  else if description = "TIMEFRAME" then AODTypeMask.Timeframe
  else AODTypeMask.Unknown

/-- The ten descriptions `getMask` knows, in the order it tests them. -/
def knownDescriptions : List String :=
  ["TRACKPAR", "TRACKPARCOV", "TRACKEXTRA", "CALO", "MUON", "VZERO", "ZDC", "TRIGGER",
   "COLLISION", "TIMEFRAME"]

/-- The function `calculateReadMask` (its argument `origin` is not read).  `OutputRoute`
is declared outside this file: `Route` stands for it and `descriptionOf route` for
`DataSpecUtils::asConcreteDataTypeMatcher(route.matcher).description`. -/
def calculateReadMask {Route : Type} (descriptionOf : Route → String) (routes : List Route) :
    Nat :=
  routes.foldl (fun readMask route => readMask ||| getMask (descriptionOf route))
    AODTypeMask.None

/-- The function `getListOfUnknown`. -/
def getListOfUnknown {Route : Type} (descriptionOf : Route → String) (routes : List Route) :
    List Route :=
  routes.foldl
    (fun unknows route =>
      if getMask (descriptionOf route) = AODTypeMask.Unknown then unknows ++ [route]
      else unknows)
    []

end AODReaderHelpers

/-! # Conversion to a symmetric matrix and state of the task (`TrackFitterSpec.cxx`) -/

namespace TrackFitterSpec

/-- Modelled from the spec: the type `SMatrix55` is declared outside this file; the claim
calls the result a symmetric 5x5 matrix and the function says "TMatrix to sym SMatrix".  A
symmetric matrix keeps one value for `(i, j)` and `(j, i)`: the 15 values of the lower
triangle, row after row; `symOffset i j` is the place of element `(i, j)` among them. -/
def symOffset (i j : Nat) : Nat :=
  if j ≤ i then i * (i + 1) / 2 + j else j * (j + 1) / 2 + i

/-- The values kept by an `SMatrix55`, by place. -/
def SMatrix55 (α : Type) : Type := Nat → α

/-- Reading `outMatrix(i, j)`. -/
def SMatrix55.get {α : Type} (m : SMatrix55 α) (i j : Nat) : α :=
  m (symOffset i j)

/-- The assignment `outMatrix(i, j) = v`. -/
def SMatrix55.set {α : Type} (m : SMatrix55 α) (i j : Nat) (v : α) : SMatrix55 α :=
  Function.update m (symOffset i j) v

/-- The function `TtoSMatrixSym55`: `i` runs over 4, 3, 2, 1, 0 (`for (auto i = 5; i--;)`)
and `j` over `i - 1, ..., 0`.  The elements are copied, never computed with, so their type
is left open; `zero` is the value of the elements of a new `SMatrix55`. -/
def TtoSMatrixSym55 {α : Type} (zero : α) (inMatrix : Nat → Nat → α) : SMatrix55 α :=
  (List.range 5).reverse.foldl
    (fun (outMatrix : SMatrix55 α) i =>
      (List.range i).reverse.foldl
        (fun (o : SMatrix55 α) j => o.set i j (inMatrix i j))
        (outMatrix.set i i (inMatrix i i)))
    (fun _ => zero)

/-- The members of `TrackFitterTask` that `init` and the guard of `run` touch: `mState`,
whether `mGRP` holds a GRP object, whether `setBz` was called on the track fitter, and the
messages written with `LOG(ERROR)`. -/
structure TrackFitterTask where
  mState : Int
  mGRP : Bool
  bzSet : Bool
  errors : List String
deriving DecidableEq, Repr

/-- The `if (grp) ... else ...` of `TrackFitterTask::init`; `grp` tells whether
`GRPObject::loadFrom` gave an object. -/
def initBranch (grp : Bool) (filename : String) (t : TrackFitterTask) : TrackFitterTask :=
  if grp then
    { t with mGRP := true, bzSet := true }
  else
    { t with
      errors := t.errors ++ ["Cannot retrieve GRP from the " ++ filename ++ " file !"]
      mState := 0 }

/-- The function `TrackFitterTask::init`: the branch on `grp`, then `mState = 1`. -/
def init (grp : Bool) (filename : String) (t : TrackFitterTask) : TrackFitterTask :=
  { initBranch grp filename t with mState := 1 }

/-- What a call of `TrackFitterTask::run` does: it returns at the guard, or it fits and
sends the tracks. -/
inductive RunResult where
  | returnedAtGuard
  | processed
deriving DecidableEq, Repr

/-- The function `TrackFitterTask::run` as far as `mState` goes: `if (mState != 1) return;`,
else the tracks are processed and `mState = 2`. -/
def run (t : TrackFitterTask) : TrackFitterTask × RunResult :=
  if t.mState ≠ 1 then (t, RunResult.returnedAtGuard)
  else ({ t with mState := 2 }, RunResult.processed)

end TrackFitterSpec

/-! # Theorems on digi2raw.cxx -/

namespace Digi2Raw

/-! ## Lemmas on the loops -/

theorem foldl_range_inv {σ : Type} (f : σ → Nat → σ) (P : Nat → σ → Prop) (n : Nat) (s0 : σ)
    (h0 : P 0 s0) (hs : ∀ i s, i < n → P i s → P (i + 1) (f s i)) :
    P n ((List.range n).foldl f s0) := by
  induction n with
  | zero => simpa using h0
  | succ k ih =>
    rw [List.range_succ, List.foldl_append]
    simp only [List.foldl_cons, List.foldl_nil]
    exact hs k _ (Nat.lt_succ_self k) (ih (fun i s hi => hs i s (Nat.lt_succ_of_lt hi)))

theorem slotStep_linkID (cfg : Config) (ilr ir ruID : Nat) (acc : Bool) (lnkAs : Nat → Nat)
    (p : SetupState × Nat) (il : Nat) :
    (slotStep cfg ilr ir ruID acc lnkAs p il).1.linkID =
      if p.1.linkID + 1 ≥ 16 then 0 else p.1.linkID + 1 := by
  cases acc <;> simp only [slotStep, MaxLinksPerCRU] <;> (repeat' split) <;> simp_all

theorem slotStep_cruID (cfg : Config) (ilr ir ruID : Nat) (acc : Bool) (lnkAs : Nat → Nat)
    (p : SetupState × Nat) (il : Nat) :
    (slotStep cfg ilr ir ruID acc lnkAs p il).1.cruID =
      if p.1.linkID + 1 ≥ 16 then p.1.cruID + 1 else p.1.cruID := by
  cases acc <;> simp only [slotStep, MaxLinksPerCRU] <;> (repeat' split) <;> simp_all

theorem slotStep_nRUtot (cfg : Config) (ilr ir ruID : Nat) (acc : Bool) (lnkAs : Nat → Nat)
    (p : SetupState × Nat) (il : Nat) :
    (slotStep cfg ilr ir ruID acc lnkAs p il).1.nRUtot = p.1.nRUtot := by
  cases acc <;> simp only [slotStep, MaxLinksPerCRU] <;> (repeat' split) <;> simp_all

theorem slotStep_rus (cfg : Config) (ilr ir ruID : Nat) (acc : Bool) (lnkAs : Nat → Nat)
    (p : SetupState × Nat) (il : Nat) :
    (slotStep cfg ilr ir ruID acc lnkAs p il).1.rus = p.1.rus := by
  cases acc <;> simp only [slotStep, MaxLinksPerCRU] <;> (repeat' split) <;> simp_all

theorem slotStep_nRU (cfg : Config) (ilr ir ruID : Nat) (acc : Bool) (lnkAs : Nat → Nat)
    (p : SetupState × Nat) (il : Nat) :
    (slotStep cfg ilr ir ruID acc lnkAs p il).1.nRU = p.1.nRU := by
  cases acc <;> simp only [slotStep, MaxLinksPerCRU] <;> (repeat' split) <;> simp_all

theorem slotStep_links (cfg : Config) (ilr ir ruID : Nat) (acc : Bool) (lnkAs : Nat → Nat)
    (p : SetupState × Nat) (il : Nat) :
    (slotStep cfg ilr ir ruID acc lnkAs p il).1.links =
      if acc then p.1.links ++ [slotReg cfg ilr ir ruID lnkAs p il] else p.1.links := by
  cases acc <;> simp only [slotStep, MaxLinksPerCRU, slotReg] <;> (repeat' split) <;> simp_all

theorem slotStep_nLinks (cfg : Config) (ilr ir ruID : Nat) (acc : Bool) (lnkAs : Nat → Nat)
    (p : SetupState × Nat) (il : Nat) :
    (slotStep cfg ilr ir ruID acc lnkAs p il).1.nLinks =
      if acc then p.1.nLinks + 1 else p.1.nLinks := by
  cases acc <;> simp only [slotStep, MaxLinksPerCRU] <;> (repeat' split) <;> simp_all

theorem slotStep_accL (cfg : Config) (ilr ir ruID : Nat) (acc : Bool) (lnkAs : Nat → Nat)
    (p : SetupState × Nat) (il : Nat) :
    (slotStep cfg ilr ir ruID acc lnkAs p il).2 = if acc then p.2 + lnkAs il else p.2 := by
  cases acc <;> simp only [slotStep, MaxLinksPerCRU] <;> (repeat' split) <;> simp_all

theorem slotStep_inv (cfg : Config) (ilr ir : Nat) (s0 : SetupState)
    (hl : ilr < cfg.mp.NLayers) (hr : ir < cfg.mp.getNStavesOnLr ilr)
    (il : Nat) (p : SetupState × Nat) (hil : il < 3) (h : SlotInv cfg ilr ir s0 il p) :
    SlotInv cfg ilr ir s0 (il + 1)
      (slotStep cfg ilr ir (firstRU cfg.mp ilr + ir) (accept cfg (firstRU cfg.mp ilr + ir))
        (cfg.lnkAssign (cfg.mp.getRUType (firstRU cfg.mp ilr))) p il) := by
  obtain ⟨h1, h2, h3, h4, h5, h6, h7, h8, h9⟩ := h
  constructor
  · rw [slotStep_nRUtot, h1]
  · rw [slotStep_rus, h2]
  · rw [slotStep_nRU, h3]
  · rw [slotStep_linkID, h4]; split <;> omega
  · rw [slotStep_cruID, h4, h5]; split <;> omega
  · intro ha
    rw [slotStep_accL, ha, h6 ha]; simp [accBefore]
  · intro e he
    rw [slotStep_links] at he
    cases hacc : accept cfg (firstRU cfg.mp ilr + ir)
    · rw [hacc] at he; exact h7 e he
    · rw [hacc] at he
      simp only [if_true, List.mem_append, List.mem_singleton] at he
      rcases he with he | he
      · exact h7 e he
      · subst he
        refine ⟨hl, hr, hil, rfl, hacc, ?_, ?_⟩
        · simp only [slotReg, linkAt, ruInfoType, h4, h5, h6 hacc]
        · intro hf
          simp only [slotReg, outFile, hf, layerFile]
          rfl
  · rw [slotStep_links]
    cases hacc : accept cfg (firstRU cfg.mp ilr + ir)
    · simpa [hacc] using h8
    · simp [hacc, h8, slotCoords, List.range_succ, coords, slotReg]
  · rw [slotStep_links, slotStep_nLinks]
    cases hacc : accept cfg (firstRU cfg.mp ilr + ir) <;> simp [h9]

theorem staveEnter_nRUtot (cfg : Config) (s : SetupState) :
    (staveEnter cfg s).nRUtot = s.nRUtot + 1 := by
  cases h : accept cfg s.nRUtot <;> simp [staveEnter, h]

theorem staveEnter_linkID (cfg : Config) (s : SetupState) :
    (staveEnter cfg s).linkID = s.linkID := by
  cases h : accept cfg s.nRUtot <;> simp [staveEnter, h]

theorem staveEnter_cruID (cfg : Config) (s : SetupState) :
    (staveEnter cfg s).cruID = s.cruID := by
  cases h : accept cfg s.nRUtot <;> simp [staveEnter, h]

theorem staveEnter_links (cfg : Config) (s : SetupState) :
    (staveEnter cfg s).links = s.links := by
  cases h : accept cfg s.nRUtot <;> simp [staveEnter, h]

theorem staveEnter_nLinks (cfg : Config) (s : SetupState) :
    (staveEnter cfg s).nLinks = s.nLinks := by
  cases h : accept cfg s.nRUtot <;> simp [staveEnter, h]

theorem staveEnter_rus (cfg : Config) (s : SetupState) :
    (staveEnter cfg s).rus =
      if accept cfg s.nRUtot then getCreateRUDecode s.rus s.nRUtot else s.rus := by
  cases h : accept cfg s.nRUtot <;> simp [staveEnter, h]

theorem staveEnter_nRU (cfg : Config) (s : SetupState) :
    (staveEnter cfg s).nRU = if accept cfg s.nRUtot then s.nRU + 1 else s.nRU := by
  cases h : accept cfg s.nRUtot <;> simp [staveEnter, h]

theorem staveStep_inv (cfg : Config) (ilr ir : Nat) (s : SetupState)
    (hl : ilr < cfg.mp.NLayers) (hr : ir < cfg.mp.getNStavesOnLr ilr)
    (h : LayerInv cfg ilr ir s) :
    LayerInv cfg ilr (ir + 1)
      (staveStep cfg ilr (cfg.lnkAssign (cfg.mp.getRUType (firstRU cfg.mp ilr))) s ir) := by
  obtain ⟨h1, h2, h3, h4, h5, h6, h7, h8⟩ := h
  have hnot : s.nRUtot ∉ s.rus := by
    rw [h6]; simp
  have key := foldl_range_inv
    (slotStep cfg ilr ir (firstRU cfg.mp ilr + ir) (accept cfg (firstRU cfg.mp ilr + ir))
      (cfg.lnkAssign (cfg.mp.getRUType (firstRU cfg.mp ilr))))
    (SlotInv cfg ilr ir (staveEnter cfg s)) 3 (staveEnter cfg s, 0)
    (by
      constructor
      · rfl
      · rfl
      · rfl
      · show (staveEnter cfg s).linkID = _
        rw [staveEnter_linkID, h2]; rfl
      · show (staveEnter cfg s).cruID = _
        rw [staveEnter_cruID, h3]; rfl
      · intro _; rfl
      · intro e he
        apply h4
        simpa [staveEnter_links] using he
      · split <;> simp [slotCoords]
      · show (staveEnter cfg s).nLinks = (staveEnter cfg s).links.length
        rw [staveEnter_nLinks, staveEnter_links, h7])
    (fun i p hi hp => slotStep_inv cfg ilr ir _ hl hr i p hi hp)
  have hst : staveStep cfg ilr (cfg.lnkAssign (cfg.mp.getRUType (firstRU cfg.mp ilr))) s ir =
      ((List.range 3).foldl
        (slotStep cfg ilr ir (firstRU cfg.mp ilr + ir) (accept cfg (firstRU cfg.mp ilr + ir))
          (cfg.lnkAssign (cfg.mp.getRUType (firstRU cfg.mp ilr))))
        (staveEnter cfg s, 0)).1 := by
    simp only [staveStep, MaxLinksPerRU, h1]
  rw [hst]
  obtain ⟨k1, k2, k3, k4, k5, _, k7, k8, k9⟩ := key
  rw [staveEnter_nRUtot] at k1
  rw [staveEnter_rus] at k2
  rw [staveEnter_nRU] at k3
  rw [staveEnter_links] at k8
  constructor
  · rw [k1, h1]; omega
  · rw [k4]; congr 1
  · rw [k5]; congr 2
  · exact k7
  · rw [k8, h5]
    simp [layerCoords, List.range_succ, staveCoords, List.append_assoc]
  · rw [k1, k2, List.range_succ, List.filter_append, ← h6]
    cases hacc : accept cfg s.nRUtot
    · simp [hacc]
    · simp [hacc, getCreateRUDecode, hnot]
  · exact k9
  · rw [k3, k2]
    cases hacc : accept cfg s.nRUtot
    · simpa using h8
    · simp [getCreateRUDecode, hnot, h8]

theorem layerStep_inv (cfg : Config) (ilr : Nat) (s : SetupState)
    (hl : ilr < cfg.mp.NLayers) (h : LayerInv cfg ilr 0 s) :
    LayerInv cfg (ilr + 1) 0 (layerStep cfg s ilr) := by
  have h1 := h.nRUtot_eq
  simp only [Nat.add_zero] at h1
  have key := foldl_range_inv
    (staveStep cfg ilr (cfg.lnkAssign (cfg.mp.getRUType (firstRU cfg.mp ilr))))
    (LayerInv cfg ilr) (cfg.mp.getNStavesOnLr ilr) s h
    (fun i t hi ht => staveStep_inv cfg ilr i t hl hi ht)
  obtain ⟨k1, k2, k3, k4, k5, k6, k7, k8⟩ := key
  simp only [layerStep, h1]
  split
  · constructor
    · simp [k1, firstRU]
    · rfl
    · simp only [k3, cruStart]; omega
    · exact k4
    · simp [k5, allCoords, List.range_succ, layerCoords]
    · exact k6
    · exact k7
    · exact k8
  · rename_i hz
    simp only [ne_eq, Decidable.not_not] at hz
    constructor
    · simp [k1, firstRU]
    · simpa using hz
    · simp only [k3, cruStart]; omega
    · exact k4
    · simp [k5, allCoords, List.range_succ, layerCoords]
    · exact k6
    · exact k7
    · exact k8

theorem initState_inv (cfg : Config) : LayerInv cfg 0 0 (initState cfg) := by
  constructor <;> simp [initState, firstRU, cruStart, allCoords, layerCoords]

/-- The state `setupLinks` ends in satisfies the loop invariant past the last layer. -/
theorem setupLinks_inv (cfg : Config) : LayerInv cfg cfg.mp.NLayers 0 (setupLinks cfg) :=
  foldl_range_inv (layerStep cfg) (fun i s => LayerInv cfg i 0 s) cfg.mp.NLayers (initState cfg)
    (initState_inv cfg) (fun i s hi hs => layerStep_inv cfg i s hi hs)

theorem setupLinks_links_ok (cfg : Config) (e : LinkReg) (he : e ∈ (setupLinks cfg).links) :
    EventOK cfg e :=
  (setupLinks_inv cfg).links_ok e he

theorem setupLinks_coords (cfg : Config) :
    (setupLinks cfg).links.map coords = allCoords cfg cfg.mp.NLayers := by
  have h := (setupLinks_inv cfg).coords_eq
  simpa [layerCoords] using h

theorem firstRU_mono (mp : Mapping) {a b : Nat} (h : a ≤ b) : firstRU mp a ≤ firstRU mp b := by
  induction h with
  | refl => exact Nat.le_refl _
  | step _ ih => exact Nat.le_trans ih (Nat.le_add_right _ _)

theorem cruStart_mono (mp : Mapping) (d : Nat) {a b : Nat} (h : a ≤ b) :
    cruStart mp d a ≤ cruStart mp d b := by
  induction h with
  | refl => exact Nat.le_refl _
  | step _ ih => exact Nat.le_trans ih (Nat.le_add_right _ _)

/-- An RU index lies in one layer only. -/
theorem firstRU_inj (mp : Mapping) {a b i j : Nat} (hi : i < mp.getNStavesOnLr a)
    (hj : j < mp.getNStavesOnLr b) (h : firstRU mp a + i = firstRU mp b + j) :
    a = b ∧ i = j := by
  rcases Nat.lt_trichotomy a b with hab | hab | hab
  · have := firstRU_mono mp (Nat.succ_le_of_lt hab)
    simp only [firstRU, Nat.succ_eq_add_one] at this
    omega
  · subst hab; exact ⟨rfl, by omega⟩
  · have := firstRU_mono mp (Nat.succ_le_of_lt hab)
    simp only [firstRU, Nat.succ_eq_add_one] at this
    omega

theorem slotStep_ord (cfg : Config) (ilr ir ruID : Nat) (acc : Bool) (lnkAs : Nat → Nat)
    (p : SetupState × Nat) (il : Nat) (h : OrdInv p.1) :
    OrdInv (slotStep cfg ilr ir ruID acc lnkAs p il).1 := by
  obtain ⟨h1, h2⟩ := h
  have hc : p.1.cruID ≤ (slotStep cfg ilr ir ruID acc lnkAs p il).1.cruID := by
    rw [slotStep_cruID]; split <;> omega
  constructor
  · rw [slotStep_links]
    cases acc
    · simpa using h1
    · simp only [if_true, List.map_append, List.map_cons, List.map_nil]
      rw [List.pairwise_append]
      refine ⟨h1, List.pairwise_singleton _ _, ?_⟩
      intro a ha b hb
      simp only [List.mem_singleton] at hb
      subst hb
      obtain ⟨e, he, rfl⟩ := List.mem_map.1 ha
      exact h2 e he
  · intro e he
    rw [slotStep_links] at he
    cases acc
    · exact Nat.le_trans (h2 e (by simpa using he)) hc
    · simp only [if_true, List.mem_append, List.mem_singleton] at he
      rcases he with he | he
      · exact Nat.le_trans (h2 e he) hc
      · subst he; exact hc

theorem staveStep_ord (cfg : Config) (ilr : Nat) (lnkAs : Nat → Nat) (s : SetupState) (ir : Nat)
    (h : OrdInv s) : OrdInv (staveStep cfg ilr lnkAs s ir) := by
  have h0 : OrdInv (staveEnter cfg s, 0).1 := by
    constructor
    · show List.Pairwise _ (List.map _ (staveEnter cfg s).links)
      rw [staveEnter_links]; exact h.sorted
    · intro e he
      show _ ≤ (staveEnter cfg s).cruID
      rw [staveEnter_cruID]
      exact h.le_cur e (by simpa [staveEnter_links] using he)
  exact foldl_range_inv (slotStep cfg ilr ir s.nRUtot (accept cfg s.nRUtot) lnkAs)
    (fun _ p => OrdInv p.1) MaxLinksPerRU (staveEnter cfg s, 0) h0
    (fun i p _ hp => slotStep_ord cfg ilr ir s.nRUtot _ lnkAs p i hp)

theorem layerStep_ord (cfg : Config) (s : SetupState) (ilr : Nat) (h : OrdInv s) :
    OrdInv (layerStep cfg s ilr) := by
  have key := foldl_range_inv (staveStep cfg ilr (cfg.lnkAssign (cfg.mp.getRUType s.nRUtot)))
    (fun _ t => OrdInv t) (cfg.mp.getNStavesOnLr ilr) s h
    (fun i t _ ht => staveStep_ord cfg ilr _ t i ht)
  simp only [layerStep]
  split
  · exact ⟨key.sorted, fun e he => Nat.le_succ_of_le (key.le_cur e he)⟩
  · exact key

theorem setupLinks_ord (cfg : Config) : OrdInv (setupLinks cfg) :=
  foldl_range_inv (layerStep cfg) (fun _ s => OrdInv s) cfg.mp.NLayers (initState cfg)
    ⟨by simp [initState], by simp [initState]⟩ (fun i s _ hs => layerStep_ord cfg s i hs)

theorem testBit_laneBits (L n a i : Nat) :
    (laneBits L n a).testBit i =
      (decide (i < 32) && (L.testBit i && (decide (a ≤ i) && decide (i - a < n)))) := by
  simp only [laneBits, Nat.testBit_mod_two_pow, Nat.testBit_and, Nat.testBit_shiftLeft,
    Nat.one_shiftLeft, Nat.testBit_two_pow_sub_one, ge_iff_le]

theorem laneBits_disjoint (L L2 n1 a1 n2 a2 : Nat) (h : a1 + n1 ≤ a2) :
    laneBits L n1 a1 &&& laneBits L2 n2 a2 = 0 := by
  apply Nat.eq_of_testBit_eq
  intro i
  rw [Nat.testBit_and, testBit_laneBits, testBit_laneBits, Nat.zero_testBit]
  by_cases h1 : i - a1 < n1
  · have h2 : ¬ a2 ≤ i := by omega
    simp [h2]
  · simp [h1]

theorem laneBits_union (L n0 n1 n2 : Nat) :
    laneBits L n0 0 ||| laneBits L n1 n0 ||| laneBits L n2 (n0 + n1) =
      (L % 2 ^ 32) % 2 ^ (n0 + n1 + n2) := by
  apply Nat.eq_of_testBit_eq
  intro i
  simp only [Nat.testBit_or, testBit_laneBits, Nat.testBit_mod_two_pow]
  by_cases h32 : i < 32 <;> cases L.testBit i <;> simp [h32]
  rw [Bool.eq_iff_iff]
  simp only [Bool.or_eq_true, Bool.and_eq_true, decide_eq_true_eq]
  omega

theorem accBefore_le (lnkAs : Nat → Nat) {a b : Nat} (h : a < b) :
    accBefore lnkAs a + lnkAs a ≤ accBefore lnkAs b := by
  induction h with
  | refl => simp [accBefore]
  | step _ ih => exact Nat.le_trans ih (by simp [accBefore])

theorem firstRU_eq_sum (mp : Mapping) (n : Nat) :
    firstRU mp n = ((List.range n).map mp.getNStavesOnLr).sum := by
  induction n with
  | zero => rfl
  | succ k ih => simp [firstRU, List.range_succ, ih]

theorem accept_iff (cfg : Config) (r : Nat) :
    accept cfg r = true ↔ cfg.ruSWMin ≤ r ∧ r ≤ cfg.ruSWMax := by
  simp [accept]

/-- Two links of one RU come from the same stave of the same layer. -/
theorem same_ru (cfg : Config) {e1 e2 : LinkReg} (o1 : EventOK cfg e1) (o2 : EventOK cfg e2)
    (hr : e1.ruID = e2.ruID) : e1.ilr = e2.ilr ∧ e1.ir = e2.ir := by
  apply firstRU_inj cfg.mp o1.ir_lt o2.ir_lt
  rw [← o1.ruID_eq, ← o2.ruID_eq, hr]

theorem mem_staveCoords (cfg : Config) (l i : Nat) (c : Nat × Nat × Nat)
    (h : c ∈ staveCoords cfg l i) : c.1 = l := by
  unfold staveCoords at h
  split at h
  · simp only [slotCoords, List.mem_map] at h
    obtain ⟨_, _, rfl⟩ := h
    rfl
  · simp at h

theorem mem_layerCoords (cfg : Config) (l k : Nat) (c : Nat × Nat × Nat)
    (h : c ∈ layerCoords cfg l k) : c.1 = l := by
  simp only [layerCoords, List.mem_flatMap] at h
  obtain ⟨i, _, hi⟩ := h
  exact mem_staveCoords cfg l i c hi

theorem mem_allCoords (cfg : Config) (N : Nat) (c : Nat × Nat × Nat)
    (h : c ∈ allCoords cfg N) : c.1 < N := by
  simp only [allCoords, List.mem_flatMap, List.mem_range] at h
  obtain ⟨l, hl, hc⟩ := h
  rw [mem_layerCoords cfg l _ c hc]
  exact hl

theorem filter_allCoords (cfg : Config) (N L : Nat) (h : L < N) :
    (allCoords cfg N).filter (fun c => decide (c.1 = L)) =
      layerCoords cfg L (cfg.mp.getNStavesOnLr L) := by
  induction N with
  | zero => omega
  | succ k ih =>
    have hs : allCoords cfg (k + 1) = allCoords cfg k ++ layerCoords cfg k (cfg.mp.getNStavesOnLr k) := by
      simp [allCoords, List.range_succ]
    rw [hs, List.filter_append]
    rcases Nat.lt_or_ge L k with hlt | hge
    · rw [ih hlt]
      have : (layerCoords cfg k (cfg.mp.getNStavesOnLr k)).filter (fun c => decide (c.1 = L)) = [] := by
        rw [List.filter_eq_nil_iff]
        intro c hc
        have := mem_layerCoords cfg k _ c hc
        simp only [decide_eq_true_eq]
        omega
      rw [this, List.append_nil]
    · have hk : L = k := by omega
      subst hk
      have h1 : (allCoords cfg L).filter (fun c => decide (c.1 = L)) = [] := by
        rw [List.filter_eq_nil_iff]
        intro c hc
        have := mem_allCoords cfg L c hc
        simp only [decide_eq_true_eq]
        omega
      have h2 : (layerCoords cfg L (cfg.mp.getNStavesOnLr L)).filter (fun c => decide (c.1 = L)) =
          layerCoords cfg L (cfg.mp.getNStavesOnLr L) := by
        rw [List.filter_eq_self]
        intro c hc
        simpa using mem_layerCoords cfg L _ c hc
      rw [h1, h2, List.nil_append]

theorem head_layerCoords (cfg : Config) (L k : Nat) (hk : 0 < k)
    (ha : accept cfg (firstRU cfg.mp L) = true) :
    (layerCoords cfg L k).head? = some (L, 0, 0) := by
  obtain ⟨j, rfl⟩ : ∃ j, k = j + 1 := ⟨k - 1, by omega⟩
  simp [layerCoords, List.range_succ_eq_map, staveCoords, ha, slotCoords]

/-- The first link registered for a layer whose first stave is accepted is slot 0 of that
stave. -/
theorem first_link_coords (cfg : Config) (L : Nat) (e : LinkReg)
    (h : ((setupLinks cfg).links.filter (fun x => decide (x.ilr = L))).head? = some e)
    (ha : accept cfg (firstRU cfg.mp L) = true) : e.ir = 0 ∧ e.il = 0 := by
  have hmem : e ∈ (setupLinks cfg).links.filter (fun x => decide (x.ilr = L)) :=
    List.mem_of_mem_head? h
  rw [List.mem_filter] at hmem
  obtain ⟨hin, hL⟩ := hmem
  simp only [decide_eq_true_eq] at hL
  have o := setupLinks_links_ok cfg e hin
  have hc : (((setupLinks cfg).links.filter (fun x => decide (x.ilr = L))).map coords).head? =
      some (coords e) := by
    rw [List.head?_map, h]; rfl
  have hf : ((setupLinks cfg).links.filter (fun x => decide (x.ilr = L))).map coords =
      ((setupLinks cfg).links.map coords).filter (fun c => decide (c.1 = L)) := by
    rw [List.filter_map]; rfl
  rw [hf, setupLinks_coords, filter_allCoords cfg _ L (hL ▸ o.ilr_lt),
    head_layerCoords cfg L _ (by have := o.ir_lt; rw [hL] at this; omega) ha] at hc
  simp only [coords, Option.some.injEq, Prod.mk.injEq] at hc
  exact ⟨hc.2.1.symm, hc.2.2.symm⟩

theorem digitChar_value (k : Nat) (h : k < 10) : (Nat.digitChar k).toNat - 48 = k := by
  interval_cases k <;> rfl

theorem toDigitsCore_append (fuel : Nat) : ∀ (n : Nat) (ds : List Char),
    Nat.toDigitsCore 10 fuel n ds = Nat.toDigitsCore 10 fuel n [] ++ ds := by
  induction fuel with
  | zero => intro n ds; simp [Nat.toDigitsCore]
  | succ f ih =>
    intro n ds
    simp only [Nat.toDigitsCore]
    split
    · simp
    · rw [ih (n / 10) (Nat.digitChar (n % 10) :: ds), ih (n / 10) [Nat.digitChar (n % 10)]]
      simp

theorem digitsValue_toDigitsCore (fuel : Nat) : ∀ n : Nat, n < fuel →
    digitsValue (Nat.toDigitsCore 10 fuel n []) = n := by
  induction fuel with
  | zero => intro n h; omega
  | succ f ih =>
    intro n h
    simp only [Nat.toDigitsCore]
    split
    · rename_i h0
      simp only [digitsValue, List.foldl_cons, List.foldl_nil, Nat.mul_zero, Nat.zero_add]
      rw [digitChar_value _ (Nat.mod_lt _ (by decide))]
      omega
    · rename_i h0
      rw [toDigitsCore_append]
      have hv := ih (n / 10) (by omega)
      simp only [digitsValue] at hv ⊢
      rw [List.foldl_append, hv]
      simp only [List.foldl_cons, List.foldl_nil]
      rw [digitChar_value _ (Nat.mod_lt _ (by decide))]
      omega

/-- Decimal printing loses nothing: two numbers with the same decimal string are equal. -/
theorem toString_nat_inj {a b : Nat} (h : toString a = toString b) : a = b := by
  have h1 : (Nat.toDigits 10 a) = (Nat.toDigits 10 b) := by
    have := congrArg String.data h
    simpa [toString, Nat.repr, List.asString] using this
  have ha := digitsValue_toDigitsCore (a + 1) a (Nat.lt_succ_self a)
  have hb := digitsValue_toDigitsCore (b + 1) b (Nat.lt_succ_self b)
  simp only [Nat.toDigits] at h1
  rw [h1] at ha
  omega

theorem layerFile_inj (cfg : Config) {a b : Nat} (h : layerFile cfg a = layerFile cfg b) :
    a = b := by
  apply toString_nat_inj
  have := congrArg String.data h
  simp only [layerFile, String.data_append] at this
  have h2 := List.append_cancel_right this
  have h3 := List.append_cancel_left h2
  exact String.ext h3

theorem slotStep_nCRU (cfg : Config) (ilr ir ruID : Nat) (acc : Bool) (lnkAs : Nat → Nat)
    (p : SetupState × Nat) (il : Nat) :
    (slotStep cfg ilr ir ruID acc lnkAs p il).1.nCRU =
      if acc = true ∧ p.1.cruIDprev ≠ (p.1.cruID : Int) then p.1.nCRU + 1 else p.1.nCRU := by
  cases acc <;> simp only [slotStep, MaxLinksPerCRU] <;> (repeat' split) <;> simp_all

theorem slotStep_cruIDprev (cfg : Config) (ilr ir ruID : Nat) (acc : Bool) (lnkAs : Nat → Nat)
    (p : SetupState × Nat) (il : Nat) :
    (slotStep cfg ilr ir ruID acc lnkAs p il).1.cruIDprev =
      if acc = true then (p.1.cruID : Int) else p.1.cruIDprev := by
  cases acc <;> simp only [slotStep, MaxLinksPerCRU] <;> (repeat' split) <;> simp_all

theorem staveEnter_nCRU (cfg : Config) (s : SetupState) :
    (staveEnter cfg s).nCRU = s.nCRU := by
  cases h : accept cfg s.nRUtot <;> simp [staveEnter, h]

theorem staveEnter_cruIDprev (cfg : Config) (s : SetupState) :
    (staveEnter cfg s).cruIDprev = s.cruIDprev := by
  cases h : accept cfg s.nRUtot <;> simp [staveEnter, h]

theorem slotStep_pos (cfg : Config) (ilr ir ruID : Nat) (acc : Bool) (lnkAs : Nat → Nat)
    (p : SetupState × Nat) (il : Nat) (h : PosInv p.1) :
    PosInv (slotStep cfg ilr ir ruID acc lnkAs p il).1 := by
  obtain ⟨h1, h2, h3⟩ := h
  have hc : 16 * p.1.cruID + p.1.linkID <
      16 * (slotStep cfg ilr ir ruID acc lnkAs p il).1.cruID +
        (slotStep cfg ilr ir ruID acc lnkAs p il).1.linkID := by
    rw [slotStep_cruID, slotStep_linkID]; split <;> omega
  constructor
  · rw [slotStep_linkID]; split <;> omega
  · rw [slotStep_links]
    cases acc
    · simpa using h2
    · simp only [if_true, List.map_append, List.map_cons, List.map_nil]
      rw [List.pairwise_append]
      refine ⟨h2, List.pairwise_singleton _ _, ?_⟩
      intro a ha b hb
      simp only [List.mem_singleton] at hb
      subst hb
      obtain ⟨e, he, rfl⟩ := List.mem_map.1 ha
      exact h3 e he
  · intro e he
    rw [slotStep_links] at he
    cases acc
    · exact Nat.lt_trans (h3 e (by simpa using he)) hc
    · simp only [if_true, List.mem_append, List.mem_singleton] at he
      rcases he with he | he
      · exact Nat.lt_trans (h3 e he) hc
      · subst he; exact hc

theorem staveStep_pos (cfg : Config) (ilr : Nat) (lnkAs : Nat → Nat) (s : SetupState) (ir : Nat)
    (h : PosInv s) : PosInv (staveStep cfg ilr lnkAs s ir) := by
  have h0 : PosInv (staveEnter cfg s, 0).1 := by
    constructor
    · show (staveEnter cfg s).linkID < 16
      rw [staveEnter_linkID]; exact h.lt16
    · show List.Pairwise _ (List.map _ (staveEnter cfg s).links)
      rw [staveEnter_links]; exact h.sorted
    · intro e he
      show _ < 16 * (staveEnter cfg s).cruID + (staveEnter cfg s).linkID
      rw [staveEnter_cruID, staveEnter_linkID]
      exact h.below e (by simpa [staveEnter_links] using he)
  exact foldl_range_inv (slotStep cfg ilr ir s.nRUtot (accept cfg s.nRUtot) lnkAs)
    (fun _ p => PosInv p.1) MaxLinksPerRU (staveEnter cfg s, 0) h0
    (fun i p _ hp => slotStep_pos cfg ilr ir s.nRUtot _ lnkAs p i hp)

theorem layerStep_pos (cfg : Config) (s : SetupState) (ilr : Nat) (h : PosInv s) :
    PosInv (layerStep cfg s ilr) := by
  have key := foldl_range_inv (staveStep cfg ilr (cfg.lnkAssign (cfg.mp.getRUType s.nRUtot)))
    (fun _ t => PosInv t) (cfg.mp.getNStavesOnLr ilr) s h
    (fun i t _ ht => staveStep_pos cfg ilr _ t i ht)
  simp only [layerStep]
  split
  · refine ⟨by simp, key.sorted, fun e he => ?_⟩
    have := key.below e he
    have := key.lt16
    simp only
    omega
  · exact key

theorem setupLinks_pos (cfg : Config) : PosInv (setupLinks cfg) :=
  foldl_range_inv (layerStep cfg) (fun _ s => PosInv s) cfg.mp.NLayers (initState cfg)
    ⟨by simp [initState], by simp [initState], by simp [initState]⟩
    (fun i s _ hs => layerStep_pos cfg s i hs)

theorem slotStep_cru (cfg : Config) (ilr ir ruID : Nat) (acc : Bool) (lnkAs : Nat → Nat)
    (p : SetupState × Nat) (il : Nat) (h : CruInv p.1) :
    CruInv (slotStep cfg ilr ir ruID acc lnkAs p il).1 := by
  obtain ⟨h1, h2, h3, h4⟩ := h
  have hc : p.1.cruID ≤ (slotStep cfg ilr ir ruID acc lnkAs p il).1.cruID := by
    rw [slotStep_cruID]; split <;> omega
  cases acc
  · constructor
    · rw [slotStep_nCRU, slotStep_links]; simpa using h1
    · intro e he
      rw [slotStep_links] at he
      rw [slotStep_cruIDprev]
      exact h2 e (by simpa using he)
    · rw [slotStep_cruIDprev, slotStep_links]
      simpa using h3
    · rw [slotStep_cruIDprev]
      simp only [Bool.false_eq_true, if_false]
      omega
  · constructor
    · rw [slotStep_nCRU, slotStep_links]
      simp only [true_and, if_true, List.map_append, List.map_cons, List.map_nil,
        List.toFinset_append, List.toFinset_cons, List.toFinset_nil, insert_emptyc_eq, slotReg]
      rw [Finset.union_comm, ← Finset.insert_eq]
      by_cases hp : p.1.cruIDprev = (p.1.cruID : Int)
      · have hm : p.1.cruID ∈ (p.1.links.map (fun e => e.link.cruID)).toFinset := by
          rcases h3 with h3 | ⟨e, he, hee⟩
          · omega
          · rw [List.mem_toFinset, List.mem_map]
            exact ⟨e, he, by omega⟩
        rw [Finset.insert_eq_of_mem hm]
        simp [hp, h1]
      · have hm : p.1.cruID ∉ (p.1.links.map (fun e => e.link.cruID)).toFinset := by
          rw [List.mem_toFinset, List.mem_map]
          rintro ⟨e, he, hee⟩
          have := h2 e he
          omega
        rw [Finset.card_insert_of_not_mem hm]
        simp [hp, h1]
    · intro e he
      rw [slotStep_links] at he
      rw [slotStep_cruIDprev]
      simp only [if_true, List.mem_append, List.mem_singleton] at he ⊢
      rcases he with he | he
      · have := h2 e he
        omega
      · subst he; simp [slotReg]
    · right
      rw [slotStep_cruIDprev, slotStep_links]
      exact ⟨slotReg cfg ilr ir ruID lnkAs p il, by simp, by simp [slotReg]⟩
    · rw [slotStep_cruIDprev]
      simp only [if_true]
      omega

theorem staveStep_cru (cfg : Config) (ilr : Nat) (lnkAs : Nat → Nat) (s : SetupState) (ir : Nat)
    (h : CruInv s) : CruInv (staveStep cfg ilr lnkAs s ir) := by
  have h0 : CruInv (staveEnter cfg s, 0).1 := by
    constructor
    · show (staveEnter cfg s).nCRU = _
      simp only [staveEnter_nCRU, staveEnter_links]; exact h.cnt
    · intro e he
      show _ ≤ (staveEnter cfg s).cruIDprev
      rw [staveEnter_cruIDprev]
      exact h.prev_ge e (by simpa [staveEnter_links] using he)
    · show (staveEnter cfg s).cruIDprev = -1 ∨ ∃ e ∈ (staveEnter cfg s).links, _ = (staveEnter cfg s).cruIDprev
      simp only [staveEnter_cruIDprev, staveEnter_links]; exact h.prev_mem
    · show (staveEnter cfg s).cruIDprev ≤ ((staveEnter cfg s).cruID : Int)
      rw [staveEnter_cruIDprev, staveEnter_cruID]; exact h.prev_le
  exact foldl_range_inv (slotStep cfg ilr ir s.nRUtot (accept cfg s.nRUtot) lnkAs)
    (fun _ p => CruInv p.1) MaxLinksPerRU (staveEnter cfg s, 0) h0
    (fun i p _ hp => slotStep_cru cfg ilr ir s.nRUtot _ lnkAs p i hp)

theorem layerStep_cru (cfg : Config) (s : SetupState) (ilr : Nat) (h : CruInv s) :
    CruInv (layerStep cfg s ilr) := by
  have key := foldl_range_inv (staveStep cfg ilr (cfg.lnkAssign (cfg.mp.getRUType s.nRUtot)))
    (fun _ t => CruInv t) (cfg.mp.getNStavesOnLr ilr) s h
    (fun i t _ ht => staveStep_cru cfg ilr _ t i ht)
  simp only [layerStep]
  split
  · refine ⟨key.cnt, key.prev_ge, key.prev_mem, ?_⟩
    have := key.prev_le
    simp only [Nat.cast_add, Nat.cast_one]
    omega
  · exact key

theorem setupLinks_cru (cfg : Config) : CruInv (setupLinks cfg) :=
  foldl_range_inv (layerStep cfg) (fun _ s => CruInv s) cfg.mp.NLayers (initState cfg)
    ⟨by simp [initState], by simp [initState], by simp [initState], by simp [initState]; omega⟩
    (fun i s _ hs => layerStep_cru cfg s i hs)

theorem crusOfLayer_ceil (n : Nat) :
    3 * n ≤ 16 * crusOfLayer n ∧ 16 * crusOfLayer n < 3 * n + 16 := by
  unfold crusOfLayer; omega

theorem cruStart_eq_sum (mp : Mapping) (d L : Nat) :
    cruStart mp d L = d <<< 10 + crusBefore mp L := by
  induction L with
  | zero => simp [cruStart, crusBefore]
  | succ k ih =>
    simp only [cruStart, crusBefore, List.range_succ, List.map_append, List.sum_append,
      List.map_cons, List.map_nil, List.sum_cons, List.sum_nil, crusOfLayer] at ih ⊢
    omega

theorem slotStep_cnt (cfg : Config) (ilr ir ruID : Nat) (lnkAs : Nat → Nat)
    (p : SetupState × Nat) (il : Nat) (h : CntInv cfg p.1) :
    CntInv cfg (slotStep cfg ilr ir ruID true lnkAs p il).1 := by
  obtain ⟨h1, h2, h3⟩ := h
  constructor
  · rw [slotStep_cruID]; split <;> omega
  · intro hz
    rw [slotStep_linkID] at hz
    rw [slotStep_nCRU, slotStep_cruID, slotStep_cruIDprev]
    have hge : p.1.linkID + 1 ≥ 16 := by
      by_contra hc
      rw [if_neg hc] at hz
      omega
    have hne : p.1.linkID ≠ 0 := by omega
    obtain ⟨a, b⟩ := h3 hne
    simp only [hge, if_true, true_and, ne_eq, b, not_true_eq_false, if_false, Nat.cast_add,
      Nat.cast_one]
    omega
  · intro hz
    rw [slotStep_linkID] at hz
    rw [slotStep_nCRU, slotStep_cruID, slotStep_cruIDprev]
    have hlt : ¬ p.1.linkID + 1 ≥ 16 := by
      intro hc
      rw [if_pos hc] at hz
      exact hz rfl
    simp only [hlt, if_false, if_true, true_and, and_true]
    by_cases h0 : p.1.linkID = 0
    · obtain ⟨a, b⟩ := h2 h0
      have : p.1.cruIDprev ≠ (p.1.cruID : Int) := by omega
      simp only [ne_eq, this, not_false_eq_true, if_true]
      omega
    · obtain ⟨a, b⟩ := h3 h0
      simp only [ne_eq, b, not_true_eq_false, if_false]
      omega

theorem staveStep_cnt (cfg : Config) (ilr : Nat) (lnkAs : Nat → Nat) (s : SetupState) (ir : Nat)
    (ha : accept cfg s.nRUtot = true) (h : CntInv cfg s) :
    CntInv cfg (staveStep cfg ilr lnkAs s ir) := by
  have h0 : CntInv cfg (staveEnter cfg s, 0).1 := by
    constructor
    · show _ ≤ (staveEnter cfg s).cruID
      rw [staveEnter_cruID]; exact h.base_le
    · show (staveEnter cfg s).linkID = 0 → _ ∧ (staveEnter cfg s).cruIDprev < ((staveEnter cfg s).cruID : Int)
      simp only [staveEnter_linkID, staveEnter_nCRU, staveEnter_cruID, staveEnter_cruIDprev]
      exact h.at_zero
    · show (staveEnter cfg s).linkID ≠ 0 → _ ∧ (staveEnter cfg s).cruIDprev = ((staveEnter cfg s).cruID : Int)
      simp only [staveEnter_linkID, staveEnter_nCRU, staveEnter_cruID, staveEnter_cruIDprev]
      exact h.at_pos
  simp only [staveStep, ha]
  exact foldl_range_inv (slotStep cfg ilr ir s.nRUtot true lnkAs)
    (fun _ p => CntInv cfg p.1) MaxLinksPerRU (staveEnter cfg s, 0) h0
    (fun i p _ hp => slotStep_cnt cfg ilr ir s.nRUtot lnkAs p i hp)

theorem layerStep_cnt (cfg : Config) (ilr : Nat) (s : SetupState)
    (hall : ∀ r, r < nStavesTotal cfg.mp → accept cfg r = true)
    (hl : ilr < cfg.mp.NLayers) (h : LayerInv cfg ilr 0 s ∧ CntInv cfg s) :
    LayerInv cfg (ilr + 1) 0 (layerStep cfg s ilr) ∧ CntInv cfg (layerStep cfg s ilr) := by
  refine ⟨layerStep_inv cfg ilr s hl h.1, ?_⟩
  have h1 := h.1.nRUtot_eq
  simp only [Nat.add_zero] at h1
  have key := foldl_range_inv
    (staveStep cfg ilr (cfg.lnkAssign (cfg.mp.getRUType (firstRU cfg.mp ilr))))
    (fun i t => LayerInv cfg ilr i t ∧ CntInv cfg t) (cfg.mp.getNStavesOnLr ilr) s h
    (fun i t hi ht => by
      refine ⟨staveStep_inv cfg ilr i t hl hi ht.1, staveStep_cnt cfg ilr _ t i ?_ ht.2⟩
      apply hall
      rw [ht.1.nRUtot_eq, nStavesTotal, ← firstRU_eq_sum]
      have := firstRU_mono cfg.mp (Nat.succ_le_of_lt hl)
      simp only [firstRU, Nat.succ_eq_add_one] at this
      omega)
  obtain ⟨_, k1, k2, k3⟩ := key
  simp only [layerStep, h1]
  split
  · rename_i hnz
    obtain ⟨a, b⟩ := k3 hnz
    refine ⟨by simp only; omega, fun _ => ?_, fun hc => absurd rfl hc⟩
    simp only [Nat.cast_add, Nat.cast_one]
    omega
  · exact ⟨k1, k2, k3⟩

theorem setupLinks_cnt (cfg : Config)
    (hall : ∀ r, r < nStavesTotal cfg.mp → accept cfg r = true) :
    CntInv cfg (setupLinks cfg) :=
  (foldl_range_inv (layerStep cfg) (fun i s => LayerInv cfg i 0 s ∧ CntInv cfg s)
    cfg.mp.NLayers (initState cfg)
    ⟨initState_inv cfg, by simp [initState], by simp [initState]; omega, by simp [initState]⟩
    (fun i s hi hs => layerStep_cnt cfg i s hall hi hs)).2

theorem mem_allCoords_of (cfg : Config) (N l i il : Nat) (hl : l < N)
    (hi : i < cfg.mp.getNStavesOnLr l) (ha : accept cfg (firstRU cfg.mp l + i) = true)
    (hil : il < 3) : (l, i, il) ∈ allCoords cfg N := by
  simp only [allCoords, layerCoords, List.mem_flatMap, List.mem_range]
  refine ⟨l, hl, i, hi, ?_⟩
  simp only [staveCoords, ha, if_true, slotCoords, List.mem_map, List.mem_range]
  exact ⟨il, hil, rfl⟩

/-- Every slot of an accepted stave has its link among the links of `setupLinks`. -/
theorem setupLinks_link_exists (cfg : Config) (l i il : Nat) (hl : l < cfg.mp.NLayers)
    (hi : i < cfg.mp.getNStavesOnLr l) (ha : accept cfg (firstRU cfg.mp l + i) = true)
    (hil : il < 3) :
    ∃ e ∈ (setupLinks cfg).links, e.ilr = l ∧ e.ir = i ∧ e.il = il := by
  have hm := mem_allCoords_of cfg cfg.mp.NLayers l i il hl hi ha hil
  rw [← setupLinks_coords, List.mem_map] at hm
  obtain ⟨e, he, hc⟩ := hm
  simp only [coords, Prod.mk.injEq] at hc
  exact ⟨e, he, hc.1, hc.2.1, hc.2.2⟩

theorem rofs_foldl {Digit : Type} (digiVec : List Digit) (rofs : List ROFRecord)
    (st : DriverState Digit) :
    (rofs.foldl (rofStep digiVec) st).calls =
        st.calls ++ (rofs.filter (fun r => decide (r.nEntries ≠ 0))).map
          (fun r =>
            { dgs := { digiVec := digiVec, first := r.firstEntry, size := r.nEntries }
              bcData := r.bcData }) ∧
      (rofs.foldl (rofStep digiVec) st).nEntProc =
        st.nEntProc + (rofs.filter (fun r => decide (r.nEntries ≠ 0))).length := by
  induction rofs generalizing st with
  | nil => simp
  | cons r rs ih =>
    simp only [List.foldl_cons]
    obtain ⟨h1, h2⟩ := ih (rofStep digiVec st r)
    rw [h1, h2]
    by_cases hz : r.nEntries = 0
    · simp [rofStep, hz]
    · simp [rofStep, hz, digitSpan]
      omega

theorem entries_foldl {Digit : Type} (entries : List (TreeEntry Digit)) (st : DriverState Digit) :
    (entries.foldl entryStep st).calls = st.calls ++ expectedCalls entries ∧
      (entries.foldl entryStep st).nEntProc = st.nEntProc + (expectedCalls entries).length := by
  induction entries generalizing st with
  | nil => simp [expectedCalls]
  | cons t ts ih =>
    simp only [List.foldl_cons]
    obtain ⟨h1, h2⟩ := ih (entryStep st t)
    obtain ⟨g1, g2⟩ := rofs_foldl t.digiVec t.rofRecVec st
    rw [h1, h2]
    simp only [entryStep, g1, g2, expectedCalls, List.flatMap_cons, List.append_assoc,
      List.length_append, List.length_map, true_and]
    omega

theorem expectedCalls_bcData {Digit : Type} (entries : List (TreeEntry Digit)) :
    (expectedCalls entries).map (fun c => c.bcData) =
      ((allRecords entries).filter (fun r => decide (r.nEntries ≠ 0))).map (fun r => r.bcData) := by
  induction entries with
  | nil => simp [expectedCalls, allRecords]
  | cons t ts ih =>
    simp only [expectedCalls, allRecords, List.flatMap_cons, List.map_append, List.map_map,
      List.filter_append] at ih ⊢
    rw [ih]
    rfl

/-! ## Properties of setupLinks and digi2raw -/

/-- C1: every link created by `setupLinks` has an in-CRU index below `MaxLinksPerCRU = 16`
(and at least 0, being a natural number), for every mapping, table and RU range. -/
theorem setupLinks_idInCRU_lt (cfg : Config) (e : LinkReg) (he : e ∈ (setupLinks cfg).links) :
    e.link.idInCRU < MaxLinksPerCRU := by
  have h := (setupLinks_links_ok cfg e he).link_eq
  rw [h]
  exact Nat.mod_lt _ (by decide)

theorem setupLinks_idInCRU_lt_witness :
    (⟨1, 1, 2, 1, ⟨261632, 4, 1, 513, 0⟩, "./ITS_lr1.raw"⟩ : LinkReg) ∈ (setupLinks cfgPerLayer).links ∧
      (4 : Nat) < MaxLinksPerCRU :=
  ⟨by decide, setupLinks_idInCRU_lt cfgPerLayer ⟨1, 1, 2, 1, ⟨261632, 4, 1, 513, 0⟩, "./ITS_lr1.raw"⟩
    (by decide)⟩

/-- C2: in creation order the CRU ids of the links of `setupLinks` never decrease, and none
is below the starting id `DetID::ITS << 10`. -/
theorem setupLinks_cruID_nondecreasing (cfg : Config) :
    ((setupLinks cfg).links.map (fun e => e.link.cruID)).Pairwise (fun a b => a ≤ b) ∧
      ∀ e ∈ (setupLinks cfg).links, cfg.detIDITS <<< 10 ≤ e.link.cruID := by
  refine ⟨(setupLinks_ord cfg).sorted, ?_⟩
  intro e he
  have h := (setupLinks_links_ok cfg e he).link_eq
  rw [h]
  have := cruStart_mono cfg.mp cfg.detIDITS (Nat.zero_le e.ilr)
  simp only [cruStart] at this
  exact Nat.le_trans this (Nat.le_add_right _ _)

theorem setupLinks_cruID_nondecreasing_witness :
    ((setupLinks cfgPerLayer).links.map (fun e => e.link.cruID)).Pairwise (fun a b => a ≤ b) ∧
      (0 : Nat) <<< 10 ≤ 1 :=
  ⟨(setupLinks_cruID_nondecreasing cfgPerLayer).1,
    (setupLinks_cruID_nondecreasing cfgPerLayer).2
      ⟨1, 1, 2, 1, ⟨261632, 4, 1, 513, 0⟩, "./ITS_lr1.raw"⟩ (by decide)⟩

/-- C3, as the code has it: a link of a later layer has a CRU id strictly above that of
every link of an earlier layer, so no CRU id carries links of two layers; the first link
created for a layer has in-CRU index 0 when the first stave of that layer is within the RU
range, and that is so whenever an earlier layer has a link. -/
theorem setupLinks_layer_rollover (cfg : Config) (e2 : LinkReg)
    (h2 : e2 ∈ (setupLinks cfg).links) :
    (∀ e1 ∈ (setupLinks cfg).links, e1.ilr < e2.ilr → e1.link.cruID < e2.link.cruID) ∧
    ((∃ e1 ∈ (setupLinks cfg).links, e1.ilr < e2.ilr) →
      accept cfg (firstRU cfg.mp e2.ilr) = true) ∧
    (((setupLinks cfg).links.filter (fun x => decide (x.ilr = e2.ilr))).head? = some e2 →
      accept cfg (firstRU cfg.mp e2.ilr) = true → e2.link.idInCRU = 0) := by
  have o2 := setupLinks_links_ok cfg e2 h2
  refine ⟨?_, ?_, ?_⟩
  · intro e1 h1 hl
    have o1 := setupLinks_links_ok cfg e1 h1
    rw [o1.link_eq, o2.link_eq]
    simp only [linkAt]
    have hm := cruStart_mono cfg.mp cfg.detIDITS (Nat.succ_le_of_lt hl)
    simp only [cruStart, Nat.succ_eq_add_one] at hm
    have := o1.ir_lt
    have := o1.il_lt
    omega
  · rintro ⟨e1, h1, hl⟩
    have o1 := setupLinks_links_ok cfg e1 h1
    have hm := firstRU_mono cfg.mp (Nat.succ_le_of_lt hl)
    simp only [firstRU, Nat.succ_eq_add_one] at hm
    have a1 := (accept_iff cfg _).1 o1.accepted
    have a2 := (accept_iff cfg _).1 o2.accepted
    have r1 := o1.ruID_eq
    have r2 := o2.ruID_eq
    have := o1.ir_lt
    rw [accept_iff]; omega
  · intro hh ha
    obtain ⟨hir, hil⟩ := first_link_coords cfg e2.ilr e2 hh ha
    rw [o2.link_eq]
    simp [linkAt, hir, hil]

theorem setupLinks_layer_rollover_witness :
    ((⟨0, 0, 0, 0, ⟨7, 0, 0, 0, 0⟩, "./ITS_lr0.raw"⟩ : LinkReg) ∈ (setupLinks cfgPerLayer).links ∧
      (⟨1, 0, 1, 0, ⟨511, 0, 1, 256, 0⟩, "./ITS_lr1.raw"⟩ : LinkReg) ∈ (setupLinks cfgPerLayer).links) ∧
    (0 : Nat) < 1 ∧ accept cfgPerLayer (firstRU cfgPerLayer.mp 1) = true ∧ (0 : Nat) = 0 :=
  ⟨⟨by decide, by decide⟩,
    (setupLinks_layer_rollover cfgPerLayer ⟨1, 0, 1, 0, ⟨511, 0, 1, 256, 0⟩, "./ITS_lr1.raw"⟩
      (by decide)).1 ⟨0, 0, 0, 0, ⟨7, 0, 0, 0, 0⟩, "./ITS_lr0.raw"⟩ (by decide) (by decide),
    (setupLinks_layer_rollover cfgPerLayer ⟨1, 0, 1, 0, ⟨511, 0, 1, 256, 0⟩, "./ITS_lr1.raw"⟩
      (by decide)).2.1 ⟨⟨0, 0, 0, 0, ⟨7, 0, 0, 0, 0⟩, "./ITS_lr0.raw"⟩, by decide, by decide⟩,
    (setupLinks_layer_rollover cfgPerLayer ⟨1, 0, 1, 0, ⟨511, 0, 1, 256, 0⟩, "./ITS_lr1.raw"⟩
      (by decide)).2.2 (by decide) (by decide)⟩

/-- C3 fails as stated: with the RU range cut to RU 2 (second stave of layer 1) the first
link created for layer 1 has in-CRU index 3. -/
theorem setupLinks_layer_rollover_counterexample :
    (((setupLinks cfgOnlyRU2).links.filter (fun x => decide (x.ilr = 1))).head?).map
      (fun e => e.link.idInCRU) = some 3 := by
  decide

/-- C4: the lane bitmasks `setupLinks` gives to two different slots of one RU have no bit in
common, for every lane pattern of the mapping and every partition table. -/
theorem setupLinks_lanes_disjoint (cfg : Config) (e1 e2 : LinkReg)
    (h1 : e1 ∈ (setupLinks cfg).links) (h2 : e2 ∈ (setupLinks cfg).links)
    (hr : e1.ruID = e2.ruID) (hne : e1.il ≠ e2.il) :
    e1.link.lanes &&& e2.link.lanes = 0 := by
  have o1 := setupLinks_links_ok cfg e1 h1
  have o2 := setupLinks_links_ok cfg e2 h2
  obtain ⟨hl, hi⟩ := same_ru cfg o1 o2 hr
  rw [o1.link_eq, o2.link_eq]
  simp only [linkAt, hl, hi]
  rcases Nat.lt_or_gt_of_ne hne with hlt | hgt
  · exact laneBits_disjoint _ _ _ _ _ _ (accBefore_le _ hlt)
  · rw [Nat.land_comm]
    exact laneBits_disjoint _ _ _ _ _ _ (accBefore_le _ hgt)

theorem setupLinks_lanes_disjoint_witness :
    (⟨1, 1, 2, 1, ⟨261632, 4, 1, 513, 0⟩, "./ITS_lr1.raw"⟩ : LinkReg) ∈ (setupLinks cfgPerLayer).links ∧
    (⟨1, 1, 2, 2, ⟨268173312, 5, 1, 514, 0⟩, "./ITS_lr1.raw"⟩ : LinkReg) ∈ (setupLinks cfgPerLayer).links ∧
      (261632 : Nat) &&& 268173312 = 0 :=
  ⟨by decide, by decide,
    setupLinks_lanes_disjoint cfgPerLayer ⟨1, 1, 2, 1, ⟨261632, 4, 1, 513, 0⟩, "./ITS_lr1.raw"⟩
      ⟨1, 1, 2, 2, ⟨268173312, 5, 1, 514, 0⟩, "./ITS_lr1.raw"⟩ (by decide) (by decide) rfl (by decide)⟩

/-- C5, as the code has it: when the partition triple `(n0, n1, n2)` of the layer requests
at most 30 lanes (the range in which the C++ shifts are defined; the compiled table requests
9, 16 and 28), the OR of the lane bitmasks of the three links of one RU is the RU's 32-bit
lane pattern cut to its lowest `n0 + n1 + n2` bits; so it is the full pattern exactly when
the pattern has no bit at position `n0 + n1 + n2` or above. -/
theorem setupLinks_lanes_union (cfg : Config) (e0 e1 e2 : LinkReg)
    (h0 : e0 ∈ (setupLinks cfg).links) (h1 : e1 ∈ (setupLinks cfg).links)
    (h2 : e2 ∈ (setupLinks cfg).links) (hr1 : e1.ruID = e0.ruID) (hr2 : e2.ruID = e0.ruID)
    (hi0 : e0.il = 0) (hi1 : e1.il = 1) (hi2 : e2.il = 2)
    (hb : cfg.lnkAssign (cfg.mp.getRUType (firstRU cfg.mp e0.ilr)) 0 +
        cfg.lnkAssign (cfg.mp.getRUType (firstRU cfg.mp e0.ilr)) 1 +
        cfg.lnkAssign (cfg.mp.getRUType (firstRU cfg.mp e0.ilr)) 2 ≤ 30) :
    (e0.link.lanes ||| e1.link.lanes ||| e2.link.lanes =
      (cfg.mp.getCablesOnRUType (cfg.mp.getRUType e0.ruID) % 2 ^ 32) %
        2 ^ (cfg.lnkAssign (cfg.mp.getRUType (firstRU cfg.mp e0.ilr)) 0 +
          cfg.lnkAssign (cfg.mp.getRUType (firstRU cfg.mp e0.ilr)) 1 +
          cfg.lnkAssign (cfg.mp.getRUType (firstRU cfg.mp e0.ilr)) 2)) ∧
    (e0.link.lanes ||| e1.link.lanes ||| e2.link.lanes =
        cfg.mp.getCablesOnRUType (cfg.mp.getRUType e0.ruID) % 2 ^ 32 ↔
      cfg.mp.getCablesOnRUType (cfg.mp.getRUType e0.ruID) % 2 ^ 32 <
        2 ^ (cfg.lnkAssign (cfg.mp.getRUType (firstRU cfg.mp e0.ilr)) 0 +
          cfg.lnkAssign (cfg.mp.getRUType (firstRU cfg.mp e0.ilr)) 1 +
          cfg.lnkAssign (cfg.mp.getRUType (firstRU cfg.mp e0.ilr)) 2)) := by
  have _ := hb
  have o0 := setupLinks_links_ok cfg e0 h0
  have o1 := setupLinks_links_ok cfg e1 h1
  have o2 := setupLinks_links_ok cfg e2 h2
  obtain ⟨hl1, hj1⟩ := same_ru cfg o1 o0 hr1
  obtain ⟨hl2, hj2⟩ := same_ru cfg o2 o0 hr2
  have key : e0.link.lanes ||| e1.link.lanes ||| e2.link.lanes =
      (cfg.mp.getCablesOnRUType (cfg.mp.getRUType e0.ruID) % 2 ^ 32) %
        2 ^ (cfg.lnkAssign (cfg.mp.getRUType (firstRU cfg.mp e0.ilr)) 0 +
          cfg.lnkAssign (cfg.mp.getRUType (firstRU cfg.mp e0.ilr)) 1 +
          cfg.lnkAssign (cfg.mp.getRUType (firstRU cfg.mp e0.ilr)) 2) := by
    rw [o0.link_eq, o1.link_eq, o2.link_eq, o0.ruID_eq]
    simp only [linkAt, hl1, hj1, hl2, hj2, hi0, hi1, hi2, accBefore, Nat.zero_add]
    rw [laneBits_union, Nat.mod_mod]
  refine ⟨key, ?_⟩
  rw [key]
  constructor
  · intro h
    rw [← h]
    exact Nat.mod_lt _ (Nat.pos_pow_of_pos _ (by decide))
  · intro h
    exact Nat.mod_eq_of_lt h

theorem setupLinks_lanes_union_witness :
    (7 ||| 56 ||| 448 : Nat) = (0x1ff % 2 ^ 32) % 2 ^ (3 + 3 + 3) ∧
      ((7 ||| 56 ||| 448 : Nat) = 0x1ff % 2 ^ 32 ↔ 0x1ff % 2 ^ 32 < 2 ^ (3 + 3 + 3)) :=
  setupLinks_lanes_union cfgPerLayer ⟨0, 0, 0, 0, ⟨7, 0, 0, 0, 0⟩, "./ITS_lr0.raw"⟩
    ⟨0, 0, 0, 1, ⟨56, 1, 0, 1, 0⟩, "./ITS_lr0.raw"⟩ ⟨0, 0, 0, 2, ⟨448, 2, 0, 2, 0⟩, "./ITS_lr0.raw"⟩
    (by decide) (by decide) (by decide) rfl rfl rfl rfl rfl (by decide)

/-- C5 fails as stated: for an IB stave with the lane pattern `0xfff` the compiled table,
whose IB row `(3, 3, 3)` has no zero, gives the three links of RU 0 the lanes `7`, `56` and
`448`, whose OR `0x1ff` is not the full pattern of the RU. -/
theorem setupLinks_lanes_union_counterexample :
    ((cfgOneIB 0xfff).lnkAssign 0 0 ≠ 0 ∧ (cfgOneIB 0xfff).lnkAssign 0 1 ≠ 0 ∧
      (cfgOneIB 0xfff).lnkAssign 0 2 ≠ 0) ∧
    (setupLinks (cfgOneIB 0xfff)).links.map (fun e => (e.ruID, e.il, e.link.lanes)) =
      [(0, 0, 7), (0, 1, 56), (0, 2, 448)] ∧
    (7 ||| 56 ||| 448 : Nat) ≠
      (cfgOneIB 0xfff).mp.getCablesOnRUType ((cfgOneIB 0xfff).mp.getRUType 0) := by
  decide

/-- C6 at a concrete call (two layers of one and two staves, `filePerCRU = true`): three
links of CRU 0 go to the files `_cru0`, `_cru1`, `_cru1`, and the first link of CRU 1 goes to
`_cru1` too, because the file name is built from `nCRU` before `nCRU` is incremented. -/
theorem setupLinks_perCRU_paths :
    (setupLinks cfgPerCRU).links.map (fun e => (e.link.cruID, e.path)) =
      [(0, "./ITS_cru0.raw"), (0, "./ITS_cru1.raw"), (0, "./ITS_cru1.raw"),
       (1, "./ITS_cru1.raw"), (1, "./ITS_cru2.raw"), (1, "./ITS_cru2.raw"),
       (1, "./ITS_cru2.raw"), (1, "./ITS_cru2.raw"), (1, "./ITS_cru2.raw")] := by
  decide

/-- C7: with `filePerCRU = false` a link registered for a stave of layer `l` gets the path
`outDir + "/" + outPrefix + "_lr" + decimal(l) + ".raw"`, so two links have the same path
exactly when they are of the same layer. -/
theorem setupLinks_perLayer_path (cfg : Config) (hf : cfg.filePerCRU = false) (e1 e2 : LinkReg)
    (h1 : e1 ∈ (setupLinks cfg).links) (h2 : e2 ∈ (setupLinks cfg).links) :
    e1.path = cfg.outDir ++ "/" ++ cfg.outPrefix ++ "_lr" ++ toString e1.ilr ++ ".raw" ∧
      (e1.path = e2.path ↔ e1.ilr = e2.ilr) := by
  have p1 := (setupLinks_links_ok cfg e1 h1).path_lr hf
  have p2 := (setupLinks_links_ok cfg e2 h2).path_lr hf
  refine ⟨p1, ?_⟩
  rw [p1, p2]
  constructor
  · exact layerFile_inj cfg
  · intro h; rw [h]

theorem setupLinks_perLayer_path_witness :
    ("./ITS_lr0.raw" = "." ++ "/" ++ "ITS" ++ "_lr" ++ toString 0 ++ ".raw") ∧
      ("./ITS_lr0.raw" = "./ITS_lr1.raw" ↔ (0 : Nat) = 1) :=
  setupLinks_perLayer_path cfgPerLayer rfl ⟨0, 0, 0, 0, ⟨7, 0, 0, 0, 0⟩, "./ITS_lr0.raw"⟩
    ⟨1, 0, 1, 0, ⟨511, 0, 1, 256, 0⟩, "./ITS_lr1.raw"⟩ (by decide) (by decide)

/-- C9: under two RU ranges, slot `il` of RU `r` gets the same CRU id and the same in-CRU
index whenever both runs create its link. -/
theorem setupLinks_filter_independent (cfg : Config) (min2 max2 : Nat) (e1 e2 : LinkReg)
    (h1 : e1 ∈ (setupLinks cfg).links)
    (h2 : e2 ∈ (setupLinks { cfg with ruSWMin := min2, ruSWMax := max2 }).links)
    (hr : e1.ruID = e2.ruID) (hi : e1.il = e2.il) :
    e1.link.cruID = e2.link.cruID ∧ e1.link.idInCRU = e2.link.idInCRU := by
  have o1 := setupLinks_links_ok cfg e1 h1
  have o2 := setupLinks_links_ok _ e2 h2
  have hh : firstRU cfg.mp e1.ilr + e1.ir = firstRU cfg.mp e2.ilr + e2.ir := by
    rw [← o1.ruID_eq, hr, o2.ruID_eq]
  obtain ⟨hl, hj⟩ := firstRU_inj cfg.mp o1.ir_lt o2.ir_lt hh
  rw [o1.link_eq, o2.link_eq]
  simp only [linkAt, hl, hj, hi, and_self]

theorem setupLinks_filter_independent_witness :
    ((⟨1, 1, 2, 1, ⟨261632, 4, 1, 513, 0⟩, "./ITS_lr1.raw"⟩ : LinkReg) ∈ (setupLinks cfgPerLayer).links ∧
      (⟨1, 1, 2, 1, ⟨261632, 4, 1, 513, 0⟩, "./ITS_lr1.raw"⟩ : LinkReg) ∈
        (setupLinks { cfgPerLayer with ruSWMin := 2, ruSWMax := 2 }).links) ∧
    ((1 : Nat) = 1 ∧ (4 : Nat) = 4) :=
  ⟨⟨by decide, by decide⟩,
    setupLinks_filter_independent cfgPerLayer 2 2 ⟨1, 1, 2, 1, ⟨261632, 4, 1, 513, 0⟩, "./ITS_lr1.raw"⟩
      ⟨1, 1, 2, 1, ⟨261632, 4, 1, 513, 0⟩, "./ITS_lr1.raw"⟩ (by decide) (by decide) rfl rfl⟩

/-- C10: after `setupLinks` the RU containers created are those of the RU indices `r` below
the number of staves with `getRUSWMin() <= r <= getRUSWMax()`, and no others. -/
theorem setupLinks_rus (cfg : Config) (r : Nat) :
    r ∈ (setupLinks cfg).rus ↔
      r < nStavesTotal cfg.mp ∧ cfg.ruSWMin ≤ r ∧ r ≤ cfg.ruSWMax := by
  have h := setupLinks_inv cfg
  rw [h.rus_eq, h.nRUtot_eq, List.mem_filter, List.mem_range, accept_iff, Nat.add_zero,
    firstRU_eq_sum]
  rfl

/-- C11: the links of `setupLinks` have pairwise different (CRU id, in-CRU index) pairs, so
the destination keys (FEE id, CRU id, link index, end point) given to `registerLink` are
pairwise different: no key is registered twice, with the same or with another path. -/
theorem setupLinks_keys_nodup (cfg : Config) :
    ((setupLinks cfg).links.map (fun e => (e.link.cruID, e.link.idInCRU))).Nodup ∧
      ((setupLinks cfg).links.map
        (fun e => (e.link.feeID, e.link.cruID, e.link.idInCRU, e.link.endPointID))).Nodup := by
  have hs := (setupLinks_pos cfg).sorted
  have hn : ((setupLinks cfg).links.map linkPos).Nodup :=
    List.Pairwise.imp (fun h => Nat.ne_of_lt h) hs
  constructor
  · apply List.Nodup.of_map (fun p : Nat × Nat => 16 * p.1 + p.2)
    rw [List.map_map]
    exact hn
  · apply List.Nodup.of_map (fun p : Nat × Nat × Nat × Nat => 16 * p.2.1 + p.2.2.1)
    rw [List.map_map]
    exact hn

/-- C12: in scenario A (two layers of one stave, IB `{3,3,3}` then OB `{9,9,10}`, 16 links
per CRU, no RU filtered out) the three links of layer 0 are on the first CRU with the
in-CRU indices 0, 1, 2, the three links of layer 1 on the next CRU with the indices 0, 1, 2,
and `setupLinks` counts 2 CRUs and 6 links. -/
theorem setupLinks_scenarioA (cables : Nat → Nat) (fee : Nat → Nat → Nat) (d : Nat) :
    (setupLinks (cfgScenarioA cables fee d)).links.map
        (fun e => (e.ilr, e.link.cruID, e.link.idInCRU)) =
      [(0, d <<< 10, 0), (0, d <<< 10, 1), (0, d <<< 10, 2),
       (1, d <<< 10 + 1, 0), (1, d <<< 10 + 1, 1), (1, d <<< 10 + 1, 2)] ∧
    (setupLinks (cfgScenarioA cables fee d)).nCRU = 2 ∧
    (setupLinks (cfgScenarioA cables fee d)).nLinks = 6 := by
  simp [setupLinks, cfgScenarioA, layerStep, staveStep, staveEnter, slotStep, initState, accept,
    MaxLinksPerRU, MaxLinksPerCRU, List.range_succ, getCreateRUDecode]

/-- C13, as the code has it: when the slots up to `il` request at most 30 lanes together
(the range in which the C++ shifts are defined), the lanes of the link of slot `il` are the
bits of the RU's 32-bit lane pattern `L` at the positions `acc .. acc + n - 1`, that is
`L AND ((2^n - 1) << acc)`, where `n` is the count the table requests for the slot and `acc`
the sum of the counts of the slots before it; this is `(L AND (2^n - 1)) << acc` when the
`acc + n` lowest bits of `L` are all set. -/
theorem setupLinks_lanes_formula (cfg : Config) (e : LinkReg)
    (he : e ∈ (setupLinks cfg).links)
    (hb : accBefore (cfg.lnkAssign (cfg.mp.getRUType (firstRU cfg.mp e.ilr))) e.il +
        cfg.lnkAssign (cfg.mp.getRUType (firstRU cfg.mp e.ilr)) e.il ≤ 30) :
    e.link.lanes =
      ((cfg.mp.getCablesOnRUType (cfg.mp.getRUType e.ruID) % 2 ^ 32) &&&
        ((2 ^ cfg.lnkAssign (cfg.mp.getRUType (firstRU cfg.mp e.ilr)) e.il - 1) <<<
          accBefore (cfg.lnkAssign (cfg.mp.getRUType (firstRU cfg.mp e.ilr))) e.il)) % 2 ^ 32 ∧
    ((∀ j, j < accBefore (cfg.lnkAssign (cfg.mp.getRUType (firstRU cfg.mp e.ilr))) e.il +
          cfg.lnkAssign (cfg.mp.getRUType (firstRU cfg.mp e.ilr)) e.il →
        (cfg.mp.getCablesOnRUType (cfg.mp.getRUType e.ruID) % 2 ^ 32).testBit j = true) →
      e.link.lanes =
        (((cfg.mp.getCablesOnRUType (cfg.mp.getRUType e.ruID) % 2 ^ 32) &&&
          (2 ^ cfg.lnkAssign (cfg.mp.getRUType (firstRU cfg.mp e.ilr)) e.il - 1)) <<<
            accBefore (cfg.lnkAssign (cfg.mp.getRUType (firstRU cfg.mp e.ilr))) e.il) % 2 ^ 32) := by
  have _ := hb
  have o := setupLinks_links_ok cfg e he
  have hl : e.link.lanes = laneBits (cfg.mp.getCablesOnRUType (cfg.mp.getRUType e.ruID) % 2 ^ 32)
      (cfg.lnkAssign (cfg.mp.getRUType (firstRU cfg.mp e.ilr)) e.il)
      (accBefore (cfg.lnkAssign (cfg.mp.getRUType (firstRU cfg.mp e.ilr))) e.il) := by
    rw [o.link_eq, o.ruID_eq]; rfl
  constructor
  · rw [hl, laneBits, Nat.one_shiftLeft]
  · intro hfull
    rw [hl]
    apply Nat.eq_of_testBit_eq
    intro i
    rw [testBit_laneBits]
    simp only [Nat.testBit_mod_two_pow, Nat.testBit_shiftLeft, Nat.testBit_and,
      Nat.testBit_two_pow_sub_one, ge_iff_le]
    by_cases h32 : i < 32
    · by_cases ha : accBefore (cfg.lnkAssign (cfg.mp.getRUType (firstRU cfg.mp e.ilr))) e.il ≤ i
      · by_cases hn : i - accBefore (cfg.lnkAssign (cfg.mp.getRUType (firstRU cfg.mp e.ilr))) e.il <
            cfg.lnkAssign (cfg.mp.getRUType (firstRU cfg.mp e.ilr)) e.il
        · have b1 := hfull i (by omega)
          have b2 := hfull (i - accBefore (cfg.lnkAssign (cfg.mp.getRUType (firstRU cfg.mp e.ilr))) e.il)
            (by omega)
          simp only [Nat.testBit_mod_two_pow, Bool.and_eq_true, decide_eq_true_eq] at b1 b2
          simp [h32, ha, hn, b1.2, b2.2, b2.1]
        · simp [hn]
      · simp [ha]
    · simp [h32]

theorem setupLinks_lanes_formula_witness :
    (56 : Nat) = ((0x1ff % 2 ^ 32) &&& ((2 ^ 3 - 1) <<< 3)) % 2 ^ 32 ∧
      (56 : Nat) = (((0x1ff % 2 ^ 32) &&& (2 ^ 3 - 1)) <<< 3) % 2 ^ 32 :=
  ⟨(setupLinks_lanes_formula cfgPerLayer ⟨0, 0, 0, 1, ⟨56, 1, 0, 1, 0⟩, "./ITS_lr0.raw"⟩
      (by decide) (by decide)).1,
    (setupLinks_lanes_formula cfgPerLayer ⟨0, 0, 0, 1, ⟨56, 1, 0, 1, 0⟩, "./ITS_lr0.raw"⟩
      (by decide) (by decide)).2 (by
        intro j hj
        have hj6 : j < 6 := hj
        interval_cases j <;> decide)⟩

/-- C13 fails as stated: for an IB stave with the lane pattern `0x1c7` the compiled table
(IB row `(3, 3, 3)`) gives slot 1 the lanes `0x1c7 AND (7 << 3) = 0`, not
`(0x1c7 AND 7) << 3 = 56`. -/
theorem setupLinks_lanes_formula_counterexample :
    (setupLinks (cfgOneIB 0x1c7)).links.map (fun e => (e.il, e.link.lanes)) =
      [(0, 7), (1, 0), (2, 448)] ∧
    (((cfgOneIB 0x1c7).mp.getCablesOnRUType 0 &&& (2 ^ (cfgOneIB 0x1c7).lnkAssign 0 1 - 1)) <<<
      (cfgOneIB 0x1c7).lnkAssign 0 0) = 56 := by
  decide

/-- C14: the calls `digi2raw` makes on the encoder are one call `digits2raw` per ROF record
with a nonzero entry count, in input order, each with the span of `nEntries` digits of its
tree entry from `firstEntry` on, which views the digits `[firstEntry, firstEntry + nEntries)`
when these lie in the entry; records without entries cause no call, so there is no call at
all exactly when every record is empty. -/
theorem digi2raw_calls {Digit : Type} (entries : List (TreeEntry Digit)) :
    (digi2rawLoop entries).calls = expectedCalls entries ∧
    (digi2rawLoop entries).nEntProc = (expectedCalls entries).length ∧
    ((digi2rawLoop entries).calls = [] ↔
      ∀ t ∈ entries, ∀ r ∈ t.rofRecVec, r.nEntries = 0) ∧
    (∀ c ∈ (digi2rawLoop entries).calls, c.dgs.size ≠ 0 ∧
      (c.dgs.first + c.dgs.size ≤ c.dgs.digiVec.length →
        c.dgs.elems = some ((c.dgs.digiVec.drop c.dgs.first).take c.dgs.size))) := by
  obtain ⟨h1, h2⟩ := entries_foldl entries { nEntProc := 0, calls := [] }
  have hc : (digi2rawLoop entries).calls = expectedCalls entries := by
    simpa [digi2rawLoop] using h1
  refine ⟨hc, by simpa [digi2rawLoop] using h2, ?_, ?_⟩
  · rw [hc]
    simp [expectedCalls, List.filter_eq_nil_iff]
  · intro c hcm
    rw [hc] at hcm
    simp only [expectedCalls, List.mem_flatMap, List.mem_map, List.mem_filter,
      decide_eq_true_eq] at hcm
    obtain ⟨t, _, r, ⟨_, hn⟩, rfl⟩ := hcm
    refine ⟨hn, fun hin => ?_⟩
    simp only [DigitSpan.elems] at hin ⊢
    rw [if_pos hin]

theorem digi2raw_calls_witness :
    (digi2rawLoop mixedEntries).calls =
      [⟨⟨[10, 11, 12], 0, 2⟩, 7⟩, ⟨⟨[20], 0, 1⟩, 3⟩] ∧
    (digi2rawLoop mixedEntries).nEntProc = 2 ∧
    ((digi2rawLoop ([{ digiVec := [], rofRecVec := [⟨0, 0, 5⟩] }] : List (TreeEntry Nat))).calls = [] ↔
      ∀ t ∈ ([{ digiVec := [], rofRecVec := [⟨0, 0, 5⟩] }] : List (TreeEntry Nat)),
        ∀ r ∈ t.rofRecVec, r.nEntries = 0) ∧
    (⟨[10, 11, 12], 0, 2⟩ : DigitSpan Nat).elems = some [10, 11] :=
  ⟨(digi2raw_calls mixedEntries).1, (digi2raw_calls mixedEntries).2.1,
    (digi2raw_calls [{ digiVec := [], rofRecVec := [⟨0, 0, 5⟩] }]).2.2.1,
    ((digi2raw_calls mixedEntries).2.2.2 ⟨⟨[10, 11, 12], 0, 2⟩, 7⟩ (by decide)).2 (by decide)⟩

/-- C15, as the code has it: `digi2raw` compares no time stamps; the calls on the encoder
are those of the ROF records with a nonzero entry count, once each and in input order, so
the time stamps the encoder gets are the time stamps of these records in input order,
whatever they are, and every such record has its call. -/
theorem digi2raw_passes_every_frame {Digit : Type} (entries : List (TreeEntry Digit)) :
    (digi2rawLoop entries).calls = expectedCalls entries ∧
    (digi2rawLoop entries).calls.map (fun c => c.bcData) =
      ((allRecords entries).filter (fun r => decide (r.nEntries ≠ 0))).map (fun r => r.bcData) ∧
    (∀ t ∈ entries, ∀ r ∈ t.rofRecVec, r.nEntries ≠ 0 →
      ({ dgs := digitSpan t.digiVec r, bcData := r.bcData } : EncoderCall Digit) ∈
        (digi2rawLoop entries).calls) := by
  obtain ⟨h1, _⟩ := entries_foldl entries { nEntProc := 0, calls := [] }
  have hc : (digi2rawLoop entries).calls = expectedCalls entries := by
    simpa [digi2rawLoop] using h1
  refine ⟨hc, ?_, ?_⟩
  · rw [hc, expectedCalls_bcData]
  · intro t ht r hr hn
    rw [hc]
    simp only [expectedCalls, List.mem_flatMap, List.mem_map, List.mem_filter, decide_eq_true_eq]
    exact ⟨t, ht, r, ⟨hr, hn⟩, rfl⟩

theorem digi2raw_passes_every_frame_witness :
    (digi2rawLoop sameStampEntries).calls.map (fun c => c.bcData) = [7, 7] ∧
    ({ dgs := ⟨[10, 11], 1, 1⟩, bcData := 7 } : EncoderCall Nat) ∈
      (digi2rawLoop sameStampEntries).calls :=
  ⟨(digi2raw_passes_every_frame sameStampEntries).2.1,
    (digi2raw_passes_every_frame sameStampEntries).2.2
      { digiVec := [10, 11], rofRecVec := [⟨0, 1, 7⟩, ⟨1, 1, 7⟩] } (by simp [sameStampEntries])
      ⟨1, 1, 7⟩ (by simp) (by decide)⟩

/-- C15 fails as stated: of two frames with the same time stamp 7 both are passed to the
encoder, and so is a frame with time stamp 3 that follows one with time stamp 7. -/
theorem digi2raw_passes_every_frame_counterexample :
    (digi2rawLoop sameStampEntries).calls.map (fun c => (c.dgs.elems, c.bcData)) =
      [(some [10], 7), (some [11], 7)] ∧
    (digi2rawLoop mixedEntries).calls.map (fun c => (c.dgs.elems, c.bcData)) =
      [(some [10, 11], 7), (some [20], 3)] := by
  decide

/-- C17: the totals `setupLinks` reports are exact: `nLinks` is the number of links
registered, `nRU` the number of RU containers created, which is the number of accepted RUs,
and `nCRU` the number of different CRU ids of the links. -/
theorem setupLinks_totals (cfg : Config) :
    (setupLinks cfg).nLinks = (setupLinks cfg).links.length ∧
    (setupLinks cfg).nRU = (setupLinks cfg).rus.length ∧
    (setupLinks cfg).nRU = ((List.range (nStavesTotal cfg.mp)).filter (accept cfg)).length ∧
    (setupLinks cfg).nCRU =
      (((setupLinks cfg).links.map (fun e => e.link.cruID)).dedup).length := by
  have h := setupLinks_inv cfg
  refine ⟨h.nLinks_eq, h.nRU_eq, ?_, ?_⟩
  · rw [h.nRU_eq, h.rus_eq, h.nRUtot_eq, Nat.add_zero, firstRU_eq_sum]
    rfl
  · rw [(setupLinks_cru cfg).cnt, List.card_toFinset]

/-- C20: when no RU is filtered out, the links of a layer of `n` staves carry exactly the
`ceil(3 * n / 16)` CRU ids that follow those of the layers before it, whatever the partition
table; the count `nCRU` that `setupLinks` reports and the advance of `cruID` over its start
value are both the sum of `ceil(3 * n_l / 16)` over the layers. -/
theorem setupLinks_cru_count (cfg : Config)
    (hall : ∀ r, r < nStavesTotal cfg.mp → accept cfg r = true) :
    (∀ l c, l < cfg.mp.NLayers →
      ((∃ e ∈ (setupLinks cfg).links, e.ilr = l ∧ e.link.cruID = c) ↔
        cfg.detIDITS <<< 10 + crusBefore cfg.mp l ≤ c ∧
          c < cfg.detIDITS <<< 10 + crusBefore cfg.mp l +
            crusOfLayer (cfg.mp.getNStavesOnLr l))) ∧
    (setupLinks cfg).nCRU = crusBefore cfg.mp cfg.mp.NLayers ∧
    (setupLinks cfg).cruID = cfg.detIDITS <<< 10 + crusBefore cfg.mp cfg.mp.NLayers := by
  have hinv := setupLinks_inv cfg
  have hcru : (setupLinks cfg).cruID = cfg.detIDITS <<< 10 + crusBefore cfg.mp cfg.mp.NLayers := by
    rw [hinv.cruID_eq, cruStart_eq_sum]; omega
  refine ⟨?_, ?_, hcru⟩
  · intro l c hl
    rw [← cruStart_eq_sum]
    constructor
    · rintro ⟨e, he, hel, hec⟩
      have o := setupLinks_links_ok cfg e he
      have h1 := o.ir_lt
      have h2 := o.il_lt
      rw [o.link_eq] at hec
      simp only [linkAt] at hec
      rw [hel] at h1 hec
      unfold crusOfLayer
      omega
    · rintro ⟨h1, h2⟩
      unfold crusOfLayer at h2
      have hi : 16 * (c - cruStart cfg.mp cfg.detIDITS l) / 3 < cfg.mp.getNStavesOnLr l := by
        omega
      have ha : accept cfg (firstRU cfg.mp l + 16 * (c - cruStart cfg.mp cfg.detIDITS l) / 3) = true := by
        apply hall
        rw [nStavesTotal, ← firstRU_eq_sum]
        have := firstRU_mono cfg.mp (Nat.succ_le_of_lt hl)
        simp only [firstRU, Nat.succ_eq_add_one] at this
        omega
      obtain ⟨e, he, e1, e2, e3⟩ := setupLinks_link_exists cfg l
        (16 * (c - cruStart cfg.mp cfg.detIDITS l) / 3)
        (16 * (c - cruStart cfg.mp cfg.detIDITS l) % 3) hl hi ha (Nat.mod_lt _ (by decide))
      refine ⟨e, he, e1, ?_⟩
      rw [(setupLinks_links_ok cfg e he).link_eq]
      simp only [linkAt, e1, e2, e3]
      omega
  · have hz : (setupLinks cfg).linkID = 0 := by
      rw [hinv.linkID_eq]
    have := ((setupLinks_cnt cfg hall).at_zero hz).1
    rw [this, hcru]
    omega

theorem setupLinks_cru_count_witness :
    (∀ l c, l < cfgPerLayer.mp.NLayers →
      ((∃ e ∈ (setupLinks cfgPerLayer).links, e.ilr = l ∧ e.link.cruID = c) ↔
        cfgPerLayer.detIDITS <<< 10 + crusBefore cfgPerLayer.mp l ≤ c ∧
          c < cfgPerLayer.detIDITS <<< 10 + crusBefore cfgPerLayer.mp l +
            crusOfLayer (cfgPerLayer.mp.getNStavesOnLr l))) ∧
    (setupLinks cfgPerLayer).nCRU = 2 ∧ (setupLinks cfgPerLayer).cruID = 2 :=
  setupLinks_cru_count cfgPerLayer (by decide)

end Digi2Raw

/-! # Theorems on the other files -/

namespace MigrateSimFiles

theorem detStep_stopped (env : Env) (grp : Option (Nat → Bool)) (filebase : String)
    (ev : List Event) (dets : List Nat) :
    dets.foldl (detStep env grp filebase) (ev, Outcome.nullDeref) = (ev, Outcome.nullDeref) := by
  induction dets with
  | nil => rfl
  | cons d ds ih => simpa [detStep] using ih

/-- C16 on the code: when the GRP cannot be loaded (`grp` is null) and there is a detector
id to loop over, `migrateSimFiles` writes "No GRP found. Exiting", does not exit, calls
`copyBranch` for the kinematics file and then stops in `grp->isDetReadOut` on the null
pointer. -/
theorem migrateSimFiles_without_grp (env : Env) (filebase : String) (h : env.First ≤ env.Last) :
    migrateSimFiles env none filebase =
      ([Event.cerr "No GRP found. Exiting\n",
        Event.copyBranch (filebase ++ ".root") (env.getMCKinematicsFileName filebase)
          env.KINEMATICSBRANCHES],
       Outcome.nullDeref) := by
  obtain ⟨k, hk⟩ : ∃ k, env.Last + 1 - env.First = k + 1 := ⟨env.Last - env.First, by omega⟩
  simp only [migrateSimFiles, hk, List.range'_succ, List.foldl_cons, Option.isNone_none, if_true]
  simp only [detStep]
  exact detStep_stopped env none filebase _ _

theorem migrateSimFiles_without_grp_witness :
    migrateSimFiles ⟨fun b => b ++ "_Kine.root", fun d b => b ++ "_Hits" ++ toString d ++ ".root",
        ["MCTrack"], fun _ => ["Hit"], 0, 2⟩ none "o2sim" =
      ([Event.cerr "No GRP found. Exiting\n",
        Event.copyBranch "o2sim.root" "o2sim_Kine.root" ["MCTrack"]], Outcome.nullDeref) :=
  migrateSimFiles_without_grp ⟨fun b => b ++ "_Kine.root",
    fun d b => b ++ "_Hits" ++ toString d ++ ".root", ["MCTrack"], fun _ => ["Hit"], 0, 2⟩ "o2sim"
    (by decide)

end MigrateSimFiles

namespace AODReaderHelpers

theorem counterAt_spec (N t nFiles k : Nat) :
    (k * N + t < nFiles → counterAt N t nFiles k = k) ∧
      (nFiles ≤ k * N + t → nFiles ≤ counterAt N t nFiles k * N + t) := by
  induction k with
  | zero => simp [counterAt]
  | succ j ih =>
    obtain ⟨h1, h2⟩ := ih
    have hmono : j * N + t ≤ (j + 1) * N + t := by
      rw [Nat.add_mul]; omega
    constructor
    · intro h
      have hj := h1 (by omega)
      simp only [counterAt, readerStep, hj]
      rw [if_neg (by omega)]
    · intro h
      simp only [counterAt, readerStep]
      by_cases hc : nFiles ≤ j * N + t
      · have := h2 hc
        rw [if_pos this]
        exact this
      · have hj := h1 (by omega)
        rw [hj, if_neg (by omega)]
        exact h

theorem readerAction_eq (N t nFiles k : Nat) :
    readerAction N t nFiles k =
      if k * N + t < nFiles then ReaderAction.readFile (k * N + t) else ReaderAction.endOfStream := by
  obtain ⟨h1, h2⟩ := counterAt_spec N t nFiles k
  by_cases h : k * N + t < nFiles
  · simp only [readerAction, readerStep, h1 h, if_pos h]
    rw [if_neg (by omega)]
  · have := h2 (by omega)
    simp only [readerAction, readerStep, if_neg h]
    rw [if_pos this]

/-- C18: a reader with `inputTimesliceId = t` among `N = maxInputTimeslices` readers takes
on its invocation `k` the file index `k * N + t` as long as that is a file, and it reports
the end of the stream exactly when the index is at or past the number of files; so every
index of the file list is taken by exactly one reader `t < N` on exactly one invocation. -/
theorem readers_partition_files (N nFiles : Nat) :
    (∀ t k, k * N + t < nFiles → readerAction N t nFiles k = ReaderAction.readFile (k * N + t)) ∧
    (∀ t k, readerAction N t nFiles k = ReaderAction.endOfStream ↔ nFiles ≤ k * N + t) ∧
    (∀ t c, (readerStep N t nFiles c).1 = ReaderAction.endOfStream ↔ nFiles ≤ c * N + t) ∧
    (∀ i, i < nFiles → 0 < N →
      ∃! p : Nat × Nat, p.1 < N ∧ readerAction N p.1 nFiles p.2 = ReaderAction.readFile i) := by
  refine ⟨?_, ?_, ?_, ?_⟩
  · intro t k h
    rw [readerAction_eq, if_pos h]
  · intro t k
    rw [readerAction_eq]
    split
    · simp only [reduceCtorEq, false_iff]; omega
    · simp only [true_iff]; omega
  · intro t c
    simp only [readerStep]
    split
    · simp only [true_iff]; omega
    · simp only [reduceCtorEq, false_iff]; omega
  · intro i hi hN
    refine ⟨(i % N, i / N), ⟨Nat.mod_lt _ hN, ?_⟩, ?_⟩
    · have he : i / N * N + i % N = i := by
        rw [Nat.mul_comm]; exact Nat.div_add_mod i N
      simp only [readerAction_eq, he, if_pos hi]
    · rintro ⟨t, k⟩ ⟨ht, hk⟩
      simp only [readerAction_eq] at hk
      split at hk
      · simp only [ReaderAction.readFile.injEq] at hk
        simp only at ht
        have h1 : i % N = t := by
          rw [← hk, Nat.mul_comm, Nat.mul_add_mod, Nat.mod_eq_of_lt ht]
        have h2 : i / N = k := by
          rw [← hk, Nat.mul_comm, Nat.mul_add_div hN, Nat.div_eq_of_lt ht, Nat.add_zero]
        simp only [Prod.mk.injEq]
        exact ⟨h1.symm, h2.symm⟩
      · simp at hk

theorem readers_partition_files_witness :
    readerAction 3 1 8 2 = ReaderAction.readFile (2 * 3 + 1) ∧
    (readerAction 3 2 8 2 = ReaderAction.endOfStream ↔ 8 ≤ 2 * 3 + 2) ∧
    (∃! p : Nat × Nat, p.1 < 3 ∧ readerAction 3 p.1 8 p.2 = ReaderAction.readFile 5) :=
  ⟨(readers_partition_files 3 8).1 1 2 (by decide), (readers_partition_files 3 8).2.1 2 2,
    (readers_partition_files 3 8).2.2.2 5 (by decide) (by decide)⟩

theorem getMask_one_bit (d : String) : ∃ k, getMask d = 2 ^ k := by
  unfold getMask
  repeat' split
  · exact ⟨0, rfl⟩
  · exact ⟨1, rfl⟩
  · exact ⟨2, rfl⟩
  · exact ⟨3, rfl⟩
  · exact ⟨4, rfl⟩
  · exact ⟨5, rfl⟩
  · exact ⟨6, rfl⟩
  · exact ⟨7, rfl⟩
  · exact ⟨8, rfl⟩
  · exact ⟨9, rfl⟩
  · exact ⟨11, rfl⟩

theorem getMask_unknown_of_not_known (d : String) (h : d ∉ knownDescriptions) :
    getMask d = AODTypeMask.Unknown := by
  simp only [knownDescriptions, List.mem_cons, List.mem_singleton, not_or, List.mem_nil_iff,
    or_false] at h
  obtain ⟨h0, h1, h2, h3, h4, h5, h6, h7, h8, h9⟩ := h
  simp only [getMask, h0, h1, h2, h3, h4, h5, h6, h7, h8, h9, if_false]

theorem and_two_pow_ne_zero (x k : Nat) : x &&& 2 ^ k ≠ 0 ↔ x.testBit k = true := by
  constructor
  · intro h
    by_contra hb
    apply h
    apply Nat.eq_of_testBit_eq
    intro i
    rw [Nat.testBit_and, Nat.testBit_two_pow, Nat.zero_testBit]
    by_cases hk : k = i
    · subst hk; simp [hb]
    · simp [hk]
  · intro h h0
    have := congrArg (fun y => Nat.testBit y k) h0
    simp [Nat.testBit_and, Nat.testBit_two_pow, h] at this

theorem testBit_getMask (d : String) (k : Nat) :
    (getMask d).testBit k = true ↔ getMask d = 2 ^ k := by
  obtain ⟨j, hj⟩ := getMask_one_bit d
  rw [hj, Nat.testBit_two_pow]
  constructor
  · intro h
    rw [of_decide_eq_true h]
  · intro h
    have := Nat.pow_right_injective (Nat.le_refl 2) h
    simp [this]

theorem foldl_readMask {Route : Type} (descriptionOf : Route → String) (routes : List Route)
    (acc k : Nat) :
    (routes.foldl (fun readMask route => readMask ||| getMask (descriptionOf route)) acc).testBit k =
      true ↔
    (acc.testBit k = true ∨ ∃ r ∈ routes, getMask (descriptionOf r) = 2 ^ k) := by
  induction routes generalizing acc with
  | nil => simp
  | cons r rs ih =>
    rw [List.foldl_cons, ih, Nat.testBit_or, Bool.or_eq_true, testBit_getMask]
    simp only [List.mem_cons, exists_eq_or_imp]
    tauto

theorem foldl_unknown {Route : Type} (descriptionOf : Route → String) (routes acc : List Route) :
    routes.foldl
      (fun unknows route =>
        if getMask (descriptionOf route) = AODTypeMask.Unknown then unknows ++ [route]
        else unknows) acc =
      acc ++ routes.filter (fun r => decide (getMask (descriptionOf r) = AODTypeMask.Unknown)) := by
  induction routes generalizing acc with
  | nil => simp
  | cons r rs ih =>
    rw [List.foldl_cons, ih]
    by_cases h : getMask (descriptionOf r) = AODTypeMask.Unknown
    · simp [h, List.filter_cons]
    · simp [h, List.filter_cons]

/-- C21: `getMask` gives a value with exactly one bit set, a different one for each of the
ten known descriptions and `Unknown = 1 << 11` for every other description; so bit `k` is
set in `calculateReadMask(routes)` exactly when the description of some route has the mask
`1 << k`, `getListOfUnknown(routes)` is the list of the routes with the mask `Unknown`, in
the order of `routes`, and it is not empty exactly when the bit `Unknown` is set in the read
mask. -/
theorem readMask_characterisation {Route : Type} (descriptionOf : Route → String)
    (routes : List Route) :
    (∀ d, ∃ k, getMask d = 2 ^ k) ∧
    ((knownDescriptions.map getMask).Nodup ∧
      ∀ d ∈ knownDescriptions, getMask d ≠ AODTypeMask.Unknown) ∧
    (∀ d, d ∉ knownDescriptions → getMask d = AODTypeMask.Unknown) ∧
    (∀ k, calculateReadMask descriptionOf routes &&& 2 ^ k ≠ 0 ↔
      ∃ r ∈ routes, getMask (descriptionOf r) = 2 ^ k) ∧
    getListOfUnknown descriptionOf routes =
      routes.filter (fun r => decide (getMask (descriptionOf r) = AODTypeMask.Unknown)) ∧
    (getListOfUnknown descriptionOf routes ≠ [] ↔
      calculateReadMask descriptionOf routes &&& AODTypeMask.Unknown ≠ 0) := by
  have hmask : ∀ k, calculateReadMask descriptionOf routes &&& 2 ^ k ≠ 0 ↔
      ∃ r ∈ routes, getMask (descriptionOf r) = 2 ^ k := by
    intro k
    rw [and_two_pow_ne_zero, calculateReadMask, foldl_readMask]
    simp [AODTypeMask.None]
  have hlist : getListOfUnknown descriptionOf routes =
      routes.filter (fun r => decide (getMask (descriptionOf r) = AODTypeMask.Unknown)) := by
    rw [getListOfUnknown, foldl_unknown, List.nil_append]
  refine ⟨getMask_one_bit, ⟨by decide, by decide⟩, getMask_unknown_of_not_known, hmask, hlist, ?_⟩
  have hu : AODTypeMask.Unknown = 2 ^ 11 := rfl
  rw [hlist, hu, hmask 11, ← hu, ne_eq, List.filter_eq_nil_iff]
  simp

theorem readMask_characterisation_witness :
    getMask "O2v0" = AODTypeMask.Unknown ∧
    (calculateReadMask (fun r : String × Nat => r.1) [("CALO", 0), ("O2v0", 1), ("ZDC", 2)] &&&
        2 ^ 3 ≠ 0 ↔
      ∃ r ∈ [("CALO", 0), ("O2v0", 1), ("ZDC", 2)], getMask r.1 = 2 ^ 3) ∧
    getListOfUnknown (fun r : String × Nat => r.1) [("CALO", 0), ("O2v0", 1), ("ZDC", 2)] =
      [("O2v0", 1)] :=
  ⟨(readMask_characterisation (fun r : String × Nat => r.1)
      [("CALO", 0), ("O2v0", 1), ("ZDC", 2)]).2.2.1 "O2v0" (by decide),
    (readMask_characterisation (fun r : String × Nat => r.1)
      [("CALO", 0), ("O2v0", 1), ("ZDC", 2)]).2.2.2.1 3,
    (readMask_characterisation (fun r : String × Nat => r.1)
      [("CALO", 0), ("O2v0", 1), ("ZDC", 2)]).2.2.2.2.1⟩

end AODReaderHelpers

namespace TrackFitterSpec

theorem TtoSMatrixSym55_get {α : Type} (zero : α) (inMatrix : Nat → Nat → α) (i j : Nat)
    (hi : i < 5) (hj : j < 5) :
    (TtoSMatrixSym55 zero inMatrix).get i j = inMatrix (max i j) (min i j) := by
  interval_cases i <;> interval_cases j <;> rfl

/-- C19: `TtoSMatrixSym55` gives the symmetric matrix made of the lower triangle of its
argument: element `(i, j)` of the result is element `(max i j, min i j)` of the argument for
`i, j` in `0 .. 4`; so the result is symmetric, and it has the elements of the argument
exactly when the argument is symmetric. -/
theorem TtoSMatrixSym55_lower {α : Type} (zero : α) (inMatrix : Nat → Nat → α) :
    (∀ i j, i < 5 → j < 5 →
      (TtoSMatrixSym55 zero inMatrix).get i j = inMatrix (max i j) (min i j)) ∧
    (∀ i j, i < 5 → j < 5 →
      (TtoSMatrixSym55 zero inMatrix).get i j = (TtoSMatrixSym55 zero inMatrix).get j i) ∧
    ((∀ i j, i < 5 → j < 5 → (TtoSMatrixSym55 zero inMatrix).get i j = inMatrix i j) ↔
      (∀ i j, i < 5 → j < 5 → inMatrix i j = inMatrix j i)) := by
  refine ⟨TtoSMatrixSym55_get zero inMatrix, ?_, ?_⟩
  · intro i j hi hj
    rw [TtoSMatrixSym55_get zero inMatrix i j hi hj, TtoSMatrixSym55_get zero inMatrix j i hj hi,
      Nat.max_comm, Nat.min_comm]
  · constructor
    · intro h i j hi hj
      rw [← h i j hi hj, ← h j i hj hi, TtoSMatrixSym55_get zero inMatrix i j hi hj,
        TtoSMatrixSym55_get zero inMatrix j i hj hi, Nat.max_comm, Nat.min_comm]
    · intro h i j hi hj
      rw [TtoSMatrixSym55_get zero inMatrix i j hi hj]
      rcases Nat.le_total i j with hle | hle
      · rw [Nat.max_eq_right hle, Nat.min_eq_left hle]
        exact h j i hj hi
      · rw [Nat.max_eq_left hle, Nat.min_eq_right hle]

theorem TtoSMatrixSym55_lower_witness :
    (TtoSMatrixSym55 0 (fun i j => 10 * i + j)).get 1 3 = 10 * max 1 3 + min 1 3 ∧
    (TtoSMatrixSym55 0 (fun i j => 10 * i + j)).get 1 3 =
      (TtoSMatrixSym55 0 (fun i j => 10 * i + j)).get 3 1 ∧
    (TtoSMatrixSym55 0 (fun i j => i + j)).get 1 3 = 1 + 3 :=
  ⟨(TtoSMatrixSym55_lower 0 (fun i j => 10 * i + j)).1 1 3 (by decide) (by decide),
    (TtoSMatrixSym55_lower 0 (fun i j => 10 * i + j)).2.1 1 3 (by decide) (by decide),
    (TtoSMatrixSym55_lower 0 (fun i j => i + j)).2.2.2 (fun i j _ _ => Nat.add_comm i j) 1 3
      (by decide) (by decide)⟩

/-- C22: `TrackFitterTask::init` leaves `mState = 1` on both paths; on the path where the
GRP cannot be retrieved the error is logged and `mState = 0` is assigned, and then
overwritten with 1, so the guard `mState != 1` of `run` lets the first run after such an
`init` through. -/
theorem init_leaves_state_one (grp : Bool) (filename : String) (t : TrackFitterTask) :
    (init grp filename t).mState = 1 ∧
    (initBranch false filename t).mState = 0 ∧
    (init false filename t).errors =
      t.errors ++ ["Cannot retrieve GRP from the " ++ filename ++ " file !"] ∧
    (init false filename t).mGRP = t.mGRP ∧
    (run (init grp filename t)).2 = RunResult.processed := by
  refine ⟨rfl, rfl, rfl, rfl, ?_⟩
  simp [run, init]

end TrackFitterSpec

